import Mathlib

/-!
# smallsh: a shallow embedding of `smallsh.c`

The shell keeps its tokens in `commandArray`, a two-dimensional `char` array whose row `i`
holds token `i`.  Rows are modelled as `String`s and the array as a function from a row index
to the string stored there; indices are `Int` because `executeCommand` computes
`arrayElementsUsed - 2` without a bound check, so the rows it reads may lie below row `0`.
Strings are unbounded here: the embedding describes the program on command lines whose tokens
fit `MAX_STRING_LENGTH` and `MAX_COMMAND_ARRAY_SIZE`.

Results of system calls (`getpid`, `fork`, `waitpid`, `getenv`, the line read from the
terminal) and the stack slot hit by the one store past the end of an array are inputs of the
model; what the shell does to the outside world (text written,
`chdir`, `kill`, the child that is forked) is recorded in a trace of events.
-/

namespace Smallsh

/-! ## Constants (`#define`s) -/

def TRUE : Int := 1
def FALSE : Int := 0

def EXIT_VALUE : Int := 1
def SIGNAL_RECEIVED : Int := 0

def PROCESS_NUMBER_SYMBOL : Char := '$'
def COMMENT_SYMBOL : Char := '#'
def BACKGROUND_SYMBOL : String := "&"
def REDIRECT_INPUT : String := "<"
def REDIRECT_OUTPUT : String := ">"
def DEV_NULL : String := "/dev/null"
def EXIT_COMMAND : String := "exit"
def STATUS_COMMAND : String := "status"
def CD_COMMAND : String := "cd"

/-- The text `sprintf(buffer, "%d", value)` produces. -/
def sprintfD (value : Int) : String := toString value

/-! ## `replaceDoubleDollarSigns` -/

/-- The `for (j = 0; j < wordLength - 1; j++)` loop of `replaceDoubleDollarSigns`, entered with
the characters from index `j` on: the first index at which `firstChar` and `secondChar` are
both `PROCESS_NUMBER_SYMBOL`, or `none` when the loop runs to its end without a change. -/
def findDoubleDollar : List Char → Nat → Option Nat
  | [], _ => none
  | [_], _ => none
  | firstChar :: secondChar :: rest, j =>
    if firstChar = PROCESS_NUMBER_SYMBOL ∧ secondChar = PROCESS_NUMBER_SYMBOL then some j
    else findDoubleDollar (secondChar :: rest) (j + 1)

/-- The body of the `if` in `replaceDoubleDollarSigns`: `tempWord` is the characters before
index `j`, then `tempPidString`, then the characters from index `j + 2` on. -/
def buildTempWord (word : List Char) (j : Nat) (tempPidString : List Char) : List Char :=
  word.take j ++ tempPidString ++ word.drop (j + 2)

/-- The `while (currentWordHasMadeItThrough == FALSE)` loop for one word, run for at most
`fuel` passes: each pass rescans the word from its start and either substitutes the first
`$$` or, finding none, lets the word through. -/
def rescanWord (tempPidString : List Char) : Nat → List Char → Option (List Char)
  | 0, _ => none
  | fuel + 1, word =>
    match findDoubleDollar word 0 with
    | none => some word
    | some j => rescanWord tempPidString fuel (buildTempWord word j tempPidString)

/-- The `for (i = 0; i < arrayElementsUsed; i++)` loop of `replaceDoubleDollarSigns` with
`remaining` rows still to visit, starting at row `i`. -/
def replaceFromRow (fuel : Nat) (tempPidString : List Char) :
    Nat → Int → (Int → String) → Option (Int → String)
  | 0, _, commandArray => some commandArray
  | remaining + 1, i, commandArray =>
    match rescanWord tempPidString fuel (commandArray i).data with
    | none => none
    | some word =>
      replaceFromRow fuel tempPidString remaining (i + 1)
        (Function.update commandArray i (String.mk word))

/-- The function `replaceDoubleDollarSigns` in a shell whose `getpid()` is `pid`; `none` when
some word needs more than `fuel` passes. -/
def replaceDoubleDollarSigns (fuel : Nat) (pid : Int) (commandArray : Int → String)
    (arrayElementsUsed : Int) : Option (Int → String) :=
  replaceFromRow fuel (sprintfD pid).data arrayElementsUsed.toNat 0 commandArray

/-- The spec's reading of the substitution: going left to right, each `$$` met is replaced by
`r` and the scan resumes after it, every other character is kept. -/
def replaceLeftToRight (r : List Char) : List Char → List Char
  | [] => []
  | [c] => [c]
  | c :: d :: rest =>
    if c = '$' ∧ d = '$' then r ++ replaceLeftToRight r rest
    else c :: replaceLeftToRight r (d :: rest)

/-! ## The command array as a list of tokens -/

/-- The `strcpy(commandArray[index], token); index++` loop of `getCommandArray`: the tokens
are written to consecutive rows starting at `index`; the result is the array and the final
value of `index`. -/
def storeTokens : List String → Int → (Int → String) → (Int → String) × Int
  | [], index, commandArray => (commandArray, index)
  | token :: rest, index, commandArray =>
    storeTokens rest (index + 1) (Function.update commandArray index token)

/-- Rows `0 .. count - 1` of the array, as a list. -/
def rowsOf (commandArray : Int → String) (count : Nat) : List String :=
  (List.range count).map (fun (i : Nat) => commandArray (i : Int))


/-! ## The outside world -/

/-- The `int` that `waitpid` fills in, as the wait macros see it: `WIFEXITED` with its
`WEXITSTATUS`, `WIFSIGNALED` with its `WTERMSIG`, or neither. -/
inductive ChildExitMethod
  | exited (exitStatus : Int)
  | signaled (termSignal : Int)
  | neither
deriving DecidableEq

/-- What the child process does between `fork` and `execvp` in `executeCommand`: the file it
opens read-only and duplicates onto descriptor 0 (if any), the file it creates or truncates and
duplicates onto descriptor 1 (if any), whether it puts `SIGINT` back to the original action,
and the vector handed to `execvp`. -/
structure ChildPlan where
  stdinFile : Option String
  stdoutFile : Option String
  restoresSigint : Bool
  commandArgs : List String
deriving DecidableEq

/-- One effect of the shell on the outside world. -/
inductive Event
  | write (text : String)
  | perror (text : String)
  | chdir (path : Option String)
  | kill (processID : Int)
  | fork (child : ChildPlan)
deriving DecidableEq

/-- The text that a trace puts on standard output. -/
def stdoutText : List Event → String
  | [] => ""
  | Event.write text :: rest => text ++ stdoutText rest
  | _ :: rest => stdoutText rest

/-- Where the store `commandArgs[arrayElementsUsed] = NULL` of `executeCommand` lands.  The
array is declared as `char* commandArgs[arrayElementsUsed]`, so the store is one slot past its
end and the source does not say what lies there.  Two cases are told apart: the slot is
unused padding of the stack frame, or it is the slot that holds the parameter
`listOfProcesses`, which then is a null pointer for the rest of the call. -/
inductive PastEndSlot
  | padding
  | listOfProcesses
deriving DecidableEq

/-- What the system calls of one pass through the main loop return.
* `pid`: `getpid()`; `home`: `getenv("HOME")`, `none` for a null pointer;
* `pollStatus p`: `waitpid(p, &childExitMethod, WNOHANG)`, `none` when it returns 0;
* `stopSignalsAtPrompt`: how many times `getline` is interrupted by `SIGTSTP` before a line
  arrives; `tokens`: the words `strtok` cuts the line into;
* `spawnPid`: what `fork()` returns in the shell;
* `stopSignalsDuringWait`: how many times the foreground `waitpid` is interrupted by
  `SIGTSTP`; `childExitMethod`: the status the foreground `waitpid` finally stores;
* `killedStatus p`: the status `waitpid(p, &childExitMethod, 0)` stores in `prepForExit`;
* `slotPastCommandArgs n`: where the store past the end of an `n`-entry `commandArgs`
  lands (not a system call, but likewise fixed outside the source). -/
structure World where
  pid : Int
  home : Option String
  pollStatus : Int → Option ChildExitMethod
  stopSignalsAtPrompt : Nat
  tokens : List String
  spawnPid : Int
  stopSignalsDuringWait : Nat
  childExitMethod : ChildExitMethod
  killedStatus : Int → ChildExitMethod
  slotPastCommandArgs : Int → PastEndSlot

/-- The variables of `main` and the three globals, with the trace of effects so far (oldest
first).  The linked list `listOfProcesses` is the list of its `processID`s from the head. -/
structure Shell where
  commandArray : Int → String
  arrayElementsUsed : Int
  statusType : Int
  statusValue : Int
  listOfProcesses : List Int
  usingBackgroundIsPossible : Int
  receivedSigtstp : Int
  weAreWaitingForForegroundProcessToStop : Int
  trace : List Event

/-- The function `outputStringWithANewline` appends this to the trace. -/
def outputStringWithANewline (text : String) : Event := Event.write (text ++ "\n")

/-- The function `outputStringWithNoNewline` appends this to the trace. -/
def outputStringWithNoNewline (text : String) : Event := Event.write text

/-- Appends events to the trace of a shell. -/
def Shell.emit (s : Shell) (events : List Event) : Shell :=
  { s with trace := s.trace ++ events }

/-! ## Signal handling -/

/-- The function `implementSigtstpLogic`: toggles between the normal and the foreground-only
mode and writes the first 50, respectively 30, bytes of the message. -/
def implementSigtstpLogic (s : Shell) : Shell :=
  if s.usingBackgroundIsPossible = TRUE then
    { s with
      usingBackgroundIsPossible := FALSE
      trace := s.trace ++
        [Event.write (String.mk
          ("\nEntering foreground-only mode (& is now ignored)\n".data.take 50))] }
  else
    { s with
      usingBackgroundIsPossible := TRUE
      trace := s.trace ++
        [Event.write (String.mk ("\nExiting foreground-only mode\n".data.take 30))] }

/-- The handler `dealWithSigtstp`, run when the shell receives `SIGTSTP`. -/
def dealWithSigtstp (s : Shell) : Shell :=
  if s.weAreWaitingForForegroundProcessToStop = FALSE then implementSigtstpLogic s
  else { s with receivedSigtstp := TRUE }

/-! ## The list of background processes -/

/-- The function `forget`: walks the list until it finds `processID` and unlinks that node.
When no node holds `processID` the walk dereferences the null pointer at the end of the list:
`none`. -/
def forget (processID : Int) : List Int → Option (List Int)
  | [] => none
  | current :: next =>
    if current ≠ processID then (forget processID next).map (fun l => current :: l)
    else some next

/-- The function `remember`: walks to the last node and links a new node after it. -/
def remember : List Int → Int → List Int
  | [], processToRemember => [processToRemember]
  | first :: rest, processToRemember => first :: remember rest processToRemember

/-- The report line for a background process that is done, `none` when the status is neither
an exit nor a signal (the two `sprintf` formats of `checkStatusOfProcess` and
`prepForExit`). -/
def statusReport (processID : Int) : ChildExitMethod → Option String
  | ChildExitMethod.exited statusValue =>
    some ("background pid " ++ sprintfD processID ++ " is done: exit value "
      ++ sprintfD statusValue)
  | ChildExitMethod.signaled statusValue =>
    some ("background pid " ++ sprintfD processID ++ " is done: terminated by signal "
      ++ sprintfD statusValue)
  | ChildExitMethod.neither => none

/-- The function `checkStatusOfProcess`; `none` when `forget` faults. -/
def checkStatusOfProcess (w : World) (processID : Int) (s : Shell) : Option Shell :=
  match w.pollStatus processID with
  | none => some s
  | some childExitMethod =>
    match statusReport processID childExitMethod with
    | some report =>
      match forget processID s.listOfProcesses with
      | none => none
      | some l =>
        some { s with
          trace := s.trace ++ [outputStringWithANewline report]
          listOfProcesses := l }
    | none => some s

/-- The `while (current != NULL)` loop of `checkForFinishedBackgroundProcesses` over the nodes
still to visit.  `current` is advanced before `checkStatusOfProcess` runs, and `forget` unlinks
a node at or before the one being checked, so the nodes visited are those of the list as it
was on entry. -/
def checkEachProcess (w : World) : List Int → Shell → Option Shell
  | [], s => some s
  | processID :: rest, s =>
    match checkStatusOfProcess w processID s with
    | none => none
    | some s1 => checkEachProcess w rest s1

/-- The function `checkForFinishedBackgroundProcesses`. -/
def checkForFinishedBackgroundProcesses (w : World) (s : Shell) : Option Shell :=
  checkEachProcess w s.listOfProcesses s

/-- The body of the loop of `prepForExit` for one node: `kill`, `waitpid`, report and
`forget`. -/
def killAndReport (w : World) (processID : Int) (s : Shell) : Option Shell :=
  let s1 := s.emit [Event.kill processID]
  match statusReport processID (w.killedStatus processID) with
  | some report =>
    match forget processID s1.listOfProcesses with
    | none => none
    | some l =>
      some { s1 with
        trace := s1.trace ++ [outputStringWithANewline report]
        listOfProcesses := l }
  | none => some s1

/-- The `while (current != NULL)` loop of `prepForExit` over the nodes still to visit. -/
def killEachProcess (w : World) : List Int → Shell → Option Shell
  | [], s => some s
  | processID :: rest, s =>
    match killAndReport w processID s with
    | none => none
    | some s1 => killEachProcess w rest s1

/-- The function `prepForExit`. -/
def prepForExit (w : World) (s : Shell) : Option Shell :=
  killEachProcess w s.listOfProcesses s

/-! ## Built-in commands -/

/-- The function `outputStatus`. -/
def outputStatus (statusType statusValue : Int) : List Event :=
  [ (if statusType = EXIT_VALUE then outputStringWithNoNewline "exit value "
     else outputStringWithNoNewline "terminated by signal "),
    outputStringWithANewline (sprintfD statusValue) ]

/-- The function `changeDirectory`, with `homePath` the result of `getenv("HOME")`: the
`chdir` call it makes. -/
def changeDirectory (homePath : Option String) (parameter : String) : Event :=
  if parameter.length = 0 ∨ parameter = "~" then Event.chdir homePath
  else Event.chdir (some parameter)

/-! ## `executeCommand` -/

/-- The locals of `executeCommand` once the trailing tokens have been looked at, together with
the row indices of `commandArray` that were read on the way (in order). -/
structure Parsed where
  arrayElementsUsed : Int
  actuallyRunInBackground : Int
  fileForInputRedirection : String
  fileForOutputRedirection : String
  needToCheckOneMoreTime : Int
  indicesRead : List Int
deriving DecidableEq

/-- The test for `BACKGROUND_SYMBOL` in the last row used. -/
def checkBackgroundSymbol (commandArray : Int → String) (arrayElementsUsed : Int)
    (usingBackgroundIsPossible : Int) : Parsed :=
  if commandArray (arrayElementsUsed - 1) = BACKGROUND_SYMBOL then
    { arrayElementsUsed := arrayElementsUsed - 1
      actuallyRunInBackground := if usingBackgroundIsPossible = TRUE then TRUE else FALSE
      fileForInputRedirection := ""
      fileForOutputRedirection := ""
      needToCheckOneMoreTime := FALSE
      indicesRead := [arrayElementsUsed - 1] }
  else
    { arrayElementsUsed := arrayElementsUsed
      actuallyRunInBackground := FALSE
      fileForInputRedirection := ""
      fileForOutputRedirection := ""
      needToCheckOneMoreTime := FALSE
      indicesRead := [arrayElementsUsed - 1] }

/-- The test of the last two rows used for `REDIRECT_INPUT` or `REDIRECT_OUTPUT` (the same
`if`/`else if` is written twice in `executeCommand`). -/
def checkRedirection (commandArray : Int → String) (p : Parsed) : Parsed :=
  if commandArray (p.arrayElementsUsed - 2) = REDIRECT_INPUT then
    { p with
      fileForInputRedirection := commandArray (p.arrayElementsUsed - 1)
      arrayElementsUsed := p.arrayElementsUsed - 2
      needToCheckOneMoreTime := TRUE
      indicesRead := p.indicesRead ++ [p.arrayElementsUsed - 2, p.arrayElementsUsed - 1] }
  else if commandArray (p.arrayElementsUsed - 2) = REDIRECT_OUTPUT then
    { p with
      fileForOutputRedirection := commandArray (p.arrayElementsUsed - 1)
      arrayElementsUsed := p.arrayElementsUsed - 2
      needToCheckOneMoreTime := TRUE
      indicesRead := p.indicesRead ++ [p.arrayElementsUsed - 2, p.arrayElementsUsed - 1] }
  else
    { p with indicesRead := p.indicesRead ++ [p.arrayElementsUsed - 2] }

/-- The trailing-token scan of `executeCommand`: the background symbol, then the last two
rows, then (only if those were a redirection) the two rows before them. -/
def parseTrailingTokens (commandArray : Int → String) (arrayElementsUsed : Int)
    (usingBackgroundIsPossible : Int) : Parsed :=
  let p1 := checkRedirection commandArray
    (checkBackgroundSymbol commandArray arrayElementsUsed usingBackgroundIsPossible)
  if p1.needToCheckOneMoreTime = TRUE then checkRedirection commandArray p1 else p1

/-- The vector `commandArgs` built for `execvp`: rows `0 .. arrayElementsUsed - 1`. -/
def commandArgs (commandArray : Int → String) (p : Parsed) : List String :=
  rowsOf commandArray p.arrayElementsUsed.toNat

/-- The branch `spawnPid == 0` of `executeCommand`, up to `execvp`. -/
def childProcess (commandArray : Int → String) (p : Parsed) : ChildPlan :=
  let fileForInputRedirection :=
    if p.actuallyRunInBackground = TRUE then
      (if p.fileForInputRedirection = "" then DEV_NULL else p.fileForInputRedirection)
    else p.fileForInputRedirection
  let fileForOutputRedirection :=
    if p.actuallyRunInBackground = TRUE then
      (if p.fileForOutputRedirection = "" then DEV_NULL else p.fileForOutputRedirection)
    else p.fileForOutputRedirection
  { stdinFile := if fileForInputRedirection ≠ "" then some fileForInputRedirection else none
    stdoutFile := if fileForOutputRedirection ≠ "" then some fileForOutputRedirection else none
    restoresSigint := decide (p.actuallyRunInBackground = FALSE)
    commandArgs := commandArgs commandArray p }

/-- The `while (resultPid == -1)` loop around the foreground `waitpid`: each `SIGTSTP` that
arrives runs the handler and makes `waitpid` return -1, so the call is made again. -/
def waitForForegroundProcess : Nat → Shell → Shell
  | 0, s => s
  | interruptions + 1, s => waitForForegroundProcess interruptions (dealWithSigtstp s)

/-- How a pass through the main loop ends: the loop goes on, the process ends with an exit
code (`return` from `main`, or `exit`), `forget` or `remember` dereferenced a null pointer, or
a word of `replaceDoubleDollarSigns` needed more passes than allowed. -/
inductive Outcome
  | running (s : Shell)
  | returned (code : Int) (s : Shell)
  | fault
  | outOfFuel

/-- The shell state an outcome carries. -/
def Outcome.shell? : Outcome → Option Shell
  | Outcome.running s => some s
  | Outcome.returned _ s => some s
  | _ => none

/-- Whether an outcome is the dereference of a null pointer. -/
def Outcome.isFault : Outcome → Bool
  | Outcome.fault => true
  | _ => false

/-- The wait region of `executeCommand`, from setting
`weAreWaitingForForegroundProcessToStop` to the deferred call of `implementSigtstpLogic`;
`interruptions` is the number of times `waitpid` is interrupted by `SIGTSTP`. -/
def foregroundWait (interruptions : Nat) (s : Shell) : Shell :=
  let s2 := { s with
    weAreWaitingForForegroundProcessToStop := TRUE
    receivedSigtstp := FALSE }
  let s3 := waitForForegroundProcess interruptions s2
  let s4 := { s3 with weAreWaitingForForegroundProcessToStop := FALSE }
  if s4.receivedSigtstp = TRUE then implementSigtstpLogic { s4 with receivedSigtstp := FALSE }
  else s4

/-- The update of `*statusType` and `*statusValue` at the end of the foreground branch of
`executeCommand`. -/
def recordTermination (childExitMethod : ChildExitMethod) (s : Shell) : Outcome :=
  match childExitMethod with
  | ChildExitMethod.exited exitStatus =>
    Outcome.running { s with statusType := EXIT_VALUE, statusValue := exitStatus }
  | ChildExitMethod.signaled termSignal =>
    Outcome.running
      { s with
        statusType := SIGNAL_RECEIVED
        statusValue := termSignal
        trace := s.trace ++
          [Event.write ("terminated by signal " ++ sprintfD termSignal ++ "\n")] }
  | ChildExitMethod.neither =>
    Outcome.returned 1 (s.emit [Event.perror "A process ended for reasons unknown!"])

/-- The background branch of `executeCommand`: the pid is announced and remembered. -/
def registerBackground (spawnPid : Int) (s : Shell) : Shell :=
  { s with
    trace := s.trace ++ [outputStringWithANewline ("background pid is " ++ sprintfD spawnPid)]
    listOfProcesses := remember s.listOfProcesses spawnPid }

/-- The function `executeCommand` as the shell (the parent of the `fork`) runs it.  The
store `commandArgs[arrayElementsUsed] = NULL` is made before the `fork`; when it lands on the
parameter `listOfProcesses`, the foreground branch, which does not use that parameter, is
unaffected, and the background branch announces the pid and then faults in
`remember(listOfProcesses, spawnPid)`, whose first statement reads `*listOfProcesses`. -/
def executeCommand (w : World) (s : Shell) : Outcome :=
  let p := parseTrailingTokens s.commandArray s.arrayElementsUsed s.usingBackgroundIsPossible
  let slot := w.slotPastCommandArgs p.arrayElementsUsed
  if w.spawnPid = -1 then
    Outcome.returned 1 (s.emit [Event.perror "Error when attempting to fork!\n"])
  else
    let s1 := s.emit [Event.fork (childProcess s.commandArray p)]
    if p.actuallyRunInBackground = FALSE then
      recordTermination w.childExitMethod (foregroundWait w.stopSignalsDuringWait s1)
    else if slot = PastEndSlot.listOfProcesses then Outcome.fault
    else Outcome.running (registerBackground w.spawnPid s1)

/-! ## `main` -/

/-- The prompt loop of `getCommandArray`: the prompt is written, and each time `getline` is
interrupted by `SIGTSTP` the handler runs and the prompt is written again. -/
def promptForLine : Nat → Shell → Shell
  | 0, s => s.emit [outputStringWithNoNewline ": "]
  | interruptions + 1, s =>
    promptForLine interruptions (dealWithSigtstp (s.emit [outputStringWithNoNewline ": "]))

/-- The function `getCommandArray`: prompts, then copies the words of the line into the first
rows of `commandArray` and sets `arrayElementsUsed` to their number.  Rows beyond that keep
what they held. -/
def getCommandArray (w : World) (s : Shell) : Shell :=
  let s1 := promptForLine w.stopSignalsAtPrompt s
  let stored := storeTokens w.tokens 0 s1.commandArray
  { s1 with commandArray := stored.1, arrayElementsUsed := stored.2 }

/-- The first three statements of the body of the main loop:
`checkForFinishedBackgroundProcesses`, `getCommandArray`, `replaceDoubleDollarSigns`. -/
def readCommand (fuel : Nat) (w : World) (s : Shell) : Outcome :=
  match checkForFinishedBackgroundProcesses w s with
  | none => Outcome.fault
  | some s1 =>
    let s2 := getCommandArray w s1
    match replaceDoubleDollarSigns fuel w.pid s2.commandArray s2.arrayElementsUsed with
    | none => Outcome.outOfFuel
    | some commandArray => Outcome.running { s2 with commandArray := commandArray }

/-- The `if`/`else if` chain of the main loop that picks a built-in command, does nothing, or
calls `executeCommand`. -/
def dispatch (w : World) (s : Shell) : Outcome :=
  if s.commandArray 0 = EXIT_COMMAND then
    match prepForExit w s with
    | none => Outcome.fault
    | some s1 => Outcome.returned 0 s1
  else if s.commandArray 0 = STATUS_COMMAND then
    Outcome.running (s.emit (outputStatus s.statusType s.statusValue))
  else if s.commandArray 0 = CD_COMMAND then
    if s.arrayElementsUsed = 1 then Outcome.running (s.emit [changeDirectory w.home ""])
    else Outcome.running (s.emit [changeDirectory w.home (s.commandArray 1)])
  else if s.arrayElementsUsed = 0 then Outcome.running s
  else if (s.commandArray 0).data.headD (Char.ofNat 0) = COMMENT_SYMBOL then Outcome.running s
  else executeCommand w s

/-- One pass through the body of `while (TRUE)` in `main`. -/
def mainIteration (fuel : Nat) (w : World) (s : Shell) : Outcome :=
  match readCommand fuel w s with
  | Outcome.running s1 => dispatch w s1
  | o => o

/-- The `while (TRUE)` loop of `main`, run on the lines that arrive. -/
def mainLoop (fuel : Nat) : List World → Shell → Outcome
  | [], s => Outcome.running s
  | w :: rest, s =>
    match mainIteration fuel w s with
    | Outcome.running s1 => mainLoop fuel rest s1
    | o => o

/-- The state of `main` when the loop is entered: the variables as initialised, and
`commandArray`, which is not initialised, holding `uninitialised`. -/
def initialShell (uninitialised : Int → String) : Shell :=
  { commandArray := uninitialised
    arrayElementsUsed := 0
    statusType := EXIT_VALUE
    statusValue := 0
    listOfProcesses := []
    usingBackgroundIsPossible := TRUE
    receivedSigtstp := FALSE
    weAreWaitingForForegroundProcessToStop := FALSE
    trace := [] }

/-- The function `main`. -/
def main (fuel : Nat) (uninitialised : Int → String) (lines : List World) : Outcome :=
  mainLoop fuel lines (initialShell uninitialised)

/-! ## Concrete sessions -/

/-- A world in which nothing happens but the arrival of a line with the given words: no
background process has finished, `fork` returns 500, the foreground child exits with 0 and
each killed process reports signal 9.  The frame of `executeCommand` is laid out with the
16-byte aligned array of 8-byte pointers directly below the slot of `listOfProcesses`: the
store past the end lands on that slot when the number of entries is even and in padding when
it is odd. -/
def quietWorld (tokens : List String) : World :=
  { pid := 4242
    home := some "/home/user"
    pollStatus := fun _ => none
    stopSignalsAtPrompt := 0
    tokens := tokens
    spawnPid := 500
    stopSignalsDuringWait := 0
    childExitMethod := ChildExitMethod.exited 0
    killedStatus := fun _ => ChildExitMethod.signaled 9
    slotPastCommandArgs := fun n =>
      if n % 2 = 0 then PastEndSlot.listOfProcesses else PastEndSlot.padding }

/-- A world in which, of the background processes, 11 has exited with code 3 and 13 has been
killed by signal 15. -/
def sweepWorld (tokens : List String) : World :=
  { quietWorld tokens with
    pollStatus := fun p =>
      if p = 11 then some (ChildExitMethod.exited 3)
      else if p = 13 then some (ChildExitMethod.signaled 15)
      else none }

/-- A shell in normal mode whose last foreground command was killed by signal 2, with the
given tokens in the command array and the given background processes. -/
def sampleShell (tokens : List String) (listOfProcesses : List Int) : Shell :=
  { commandArray := (storeTokens tokens 0 (fun _ => "")).1
    arrayElementsUsed := tokens.length
    statusType := SIGNAL_RECEIVED
    statusValue := 2
    listOfProcesses := listOfProcesses
    usingBackgroundIsPossible := TRUE
    receivedSigtstp := FALSE
    weAreWaitingForForegroundProcessToStop := FALSE
    trace := [] }

/-- The texts of the `write` events of a trace, in order. -/
def writtenTexts : List Event → List String
  | [] => []
  | Event.write text :: rest => text :: writtenTexts rest
  | _ :: rest => writtenTexts rest

/-! ## Spec-side vocabulary -/

/-- The spec's rewritten token: every `$$` of `token`, left to right and without overlap,
replaced by the decimal string of `pid`. -/
def substituted (pid : Int) (token : String) : String :=
  String.mk (replaceLeftToRight (sprintfD pid).data token.data)

/-- The spec's newline-terminated report for a background process that is done. -/
def doneLine (processID : Int) : ChildExitMethod → String
  | ChildExitMethod.exited c =>
    "background pid " ++ sprintfD processID ++ " is done: exit value " ++ sprintfD c ++ "\n"
  | ChildExitMethod.signaled sg =>
    "background pid " ++ sprintfD processID ++ " is done: terminated by signal "
      ++ sprintfD sg ++ "\n"
  | ChildExitMethod.neither => ""

/-- What the sweep writes for one registered pid: its report if the non-blocking check found
it exited or killed, nothing otherwise. -/
def sweepReport (w : World) (processID : Int) : Option Event :=
  match w.pollStatus processID with
  | none => none
  | some childExitMethod =>
    (statusReport processID childExitMethod).map outputStringWithANewline

/-- What `executeCommand` makes of a token sequence left in the array by `getCommandArray`:
the argument vector, the input file, the output file and `actuallyRunInBackground`. -/
def scanTokens (tokens : List String) (commandArray : Int → String)
    (usingBackgroundIsPossible : Int) : List String × String × String × Int :=
  (commandArgs (storeTokens tokens 0 commandArray).1
      (parseTrailingTokens (storeTokens tokens 0 commandArray).1 tokens.length
        usingBackgroundIsPossible),
    (parseTrailingTokens (storeTokens tokens 0 commandArray).1 tokens.length
      usingBackgroundIsPossible).fileForInputRedirection,
    (parseTrailingTokens (storeTokens tokens 0 commandArray).1 tokens.length
      usingBackgroundIsPossible).fileForOutputRedirection,
    (parseTrailingTokens (storeTokens tokens 0 commandArray).1 tokens.length
      usingBackgroundIsPossible).actuallyRunInBackground)

/-- The fields of a `Parsed` other than the record of indices read. -/
def Parsed.core (p : Parsed) : Int × Int × String × String × Int :=
  (p.arrayElementsUsed, p.actuallyRunInBackground, p.fileForInputRedirection,
    p.fileForOutputRedirection, p.needToCheckOneMoreTime)


/-- The shell right after a successful `fork` in `executeCommand`: the child has been
created with the plan the trailing-token scan gives. -/
def afterFork (s : Shell) : Shell :=
  s.emit [Event.fork (childProcess s.commandArray
    (parseTrailingTokens s.commandArray s.arrayElementsUsed s.usingBackgroundIsPossible))]

/-! ## Proofs: `$$` substitution -/

theorem digitChar_ne_dollar : ∀ k, k < 10 → Nat.digitChar k ≠ '$' := by
  decide

theorem toDigitsCore_no_dollar : ∀ (fuel n : Nat) (ds : List Char),
    (∀ c ∈ ds, c ≠ '$') → ∀ c ∈ Nat.toDigitsCore 10 fuel n ds, c ≠ '$'
  | 0, _, ds, hds => by simpa [Nat.toDigitsCore] using hds
  | fuel + 1, n, ds, hds => by
    have hcons : ∀ c ∈ Nat.digitChar (n % 10) :: ds, c ≠ '$' := by
      intro c hc
      rcases List.mem_cons.1 hc with h | h
      · rw [h]; exact digitChar_ne_dollar _ (Nat.mod_lt _ (by decide))
      · exact hds c h
    unfold Nat.toDigitsCore
    by_cases h0 : n / 10 = 0
    · simpa [h0] using hcons
    · simp only [h0, if_false]
      exact toDigitsCore_no_dollar fuel (n / 10) _ hcons

theorem natRepr_no_dollar (m : Nat) : ∀ c ∈ (toString m).data, c ≠ '$' := by
  have h := toDigitsCore_no_dollar (m + 1) m [] (by simp)
  simpa [toString, Nat.repr, Nat.toDigits, List.asString] using h

theorem sprintfD_no_dollar (pid : Int) : ∀ c ∈ (sprintfD pid).data, c ≠ '$' := by
  intro c hc
  cases pid with
  | ofNat m =>
    exact natRepr_no_dollar m c (by simpa [sprintfD, toString] using hc)
  | negSucc m =>
    have hc2 : c ∈ ("-" ++ toString (m + 1)).data := by simpa [sprintfD, toString] using hc
    rw [String.data_append, List.mem_append] at hc2
    rcases hc2 with h | h
    · have : c = '-' := by simpa using h
      rw [this]; decide
    · exact natRepr_no_dollar (m + 1) c h

theorem replaceLeftToRight_cons_of_ne (r : List Char) (c : Char) (t : List Char)
    (h : c ≠ '$') : replaceLeftToRight r (c :: t) = c :: replaceLeftToRight r t := by
  cases t with
  | nil => simp [replaceLeftToRight]
  | cons d rest => simp [replaceLeftToRight, h]

theorem replaceLeftToRight_cons_cons_of_ne (r : List Char) (c d : Char) (rest : List Char)
    (h : d ≠ '$') :
    replaceLeftToRight r (c :: d :: rest) = c :: replaceLeftToRight r (d :: rest) := by
  simp [replaceLeftToRight, h]

theorem replaceLeftToRight_append_of_no_dollar (r : List Char) :
    ∀ (a x : List Char), (∀ c ∈ a, c ≠ '$') →
      replaceLeftToRight r (a ++ x) = a ++ replaceLeftToRight r x
  | [], x, _ => by simp
  | c :: a, x, h => by
    have hc : c ≠ '$' := h c (List.mem_cons_self _ _)
    have ha : ∀ c ∈ a, c ≠ '$' := fun c' hc' => h c' (List.mem_cons_of_mem _ hc')
    rw [List.cons_append, replaceLeftToRight_cons_of_ne r c _ hc,
      replaceLeftToRight_append_of_no_dollar r a x ha, List.cons_append]

theorem findDoubleDollar_none_of_not_infix :
    ∀ (w : List Char) (k : Nat), ¬ ['$', '$'] <:+: w → findDoubleDollar w k = none
  | [], _, _ => by simp [findDoubleDollar]
  | [_], _, _ => by simp [findDoubleDollar]
  | c :: d :: rest, k, h => by
    have hcd : ¬ (c = '$' ∧ d = '$') := by
      rintro ⟨rfl, rfl⟩
      exact h ⟨[], rest, by simp⟩
    have htail : ¬ ['$', '$'] <:+: d :: rest := by
      rintro ⟨s, t, hst⟩
      exact h ⟨c :: s, t, by simp [← hst]⟩
    simp only [findDoubleDollar, PROCESS_NUMBER_SYMBOL, hcd, if_false]
    exact findDoubleDollar_none_of_not_infix (d :: rest) (k + 1) htail

theorem not_infix_of_findDoubleDollar_none :
    ∀ (w : List Char) (k : Nat), findDoubleDollar w k = none → ¬ ['$', '$'] <:+: w
  | [], _, _ => by
    rintro ⟨s, t, hst⟩
    simp at hst
  | [c], _, _ => by
    rintro ⟨s, t, hst⟩
    have := congrArg List.length hst
    simp at this
    omega
  | c :: d :: rest, k, h => by
    by_cases hcd : c = '$' ∧ d = '$'
    · simp [findDoubleDollar, PROCESS_NUMBER_SYMBOL, hcd] at h
    · simp only [findDoubleDollar, PROCESS_NUMBER_SYMBOL, hcd, if_false] at h
      have ih := not_infix_of_findDoubleDollar_none (d :: rest) (k + 1) h
      rintro ⟨s, t, hst⟩
      cases s with
      | nil =>
        simp at hst
        exact hcd ⟨hst.1.symm, hst.2.1.symm⟩
      | cons s0 s =>
        simp at hst
        exact ih ⟨s, t, by simpa using hst.2⟩

theorem replaceLeftToRight_of_findDoubleDollar_none (r : List Char) :
    ∀ (w : List Char) (k : Nat), findDoubleDollar w k = none → replaceLeftToRight r w = w
  | [], _, _ => by simp [replaceLeftToRight]
  | [_], _, _ => by simp [replaceLeftToRight]
  | c :: d :: rest, k, h => by
    by_cases hcd : c = '$' ∧ d = '$'
    · simp [findDoubleDollar, PROCESS_NUMBER_SYMBOL, hcd] at h
    · simp only [findDoubleDollar, PROCESS_NUMBER_SYMBOL, hcd, if_false] at h
      simp only [replaceLeftToRight, hcd, if_false]
      rw [replaceLeftToRight_of_findDoubleDollar_none r (d :: rest) (k + 1) h]

/-- One substitution at the first `$$` leaves the left-to-right result as it was and removes
two `$` characters. -/
theorem findDoubleDollar_some (r : List Char) (hr : ∀ c ∈ r, c ≠ '$') :
    ∀ (w : List Char) (k j : Nat), findDoubleDollar w k = some j →
      k ≤ j ∧
      replaceLeftToRight r (buildTempWord w (j - k) r) = replaceLeftToRight r w ∧
      (buildTempWord w (j - k) r).count '$' + 2 = w.count '$' ∧
      (∀ d t, w = d :: t → d ≠ '$' → ∃ t', buildTempWord w (j - k) r = d :: t')
  | [], _, _, h => by simp [findDoubleDollar] at h
  | [_], _, _, h => by simp [findDoubleDollar] at h
  | c :: d :: rest, k, j, h => by
    by_cases hcd : c = '$' ∧ d = '$'
    · simp [findDoubleDollar, PROCESS_NUMBER_SYMBOL, hcd] at h
      obtain ⟨rfl, rfl⟩ := hcd
      subst h
      have hcount : List.count '$' r = 0 := by
        rw [List.count_eq_zero]
        intro hmem
        exact hr _ hmem rfl
      refine ⟨le_refl _, ?_, ?_, ?_⟩
      · simp [buildTempWord, replaceLeftToRight,
          replaceLeftToRight_append_of_no_dollar r r rest hr]
      · simp [buildTempWord, hcount]
      · intro d t hw hd
        simp at hw
        exact absurd hw.1.symm hd
    · simp only [findDoubleDollar, PROCESS_NUMBER_SYMBOL, hcd, if_false] at h
      obtain ⟨hle, heq, hcnt, hhead⟩ := findDoubleDollar_some r hr (d :: rest) (k + 1) j h
      have hjk : j - k = (j - (k + 1)) + 1 := by omega
      have hbuild : buildTempWord (c :: d :: rest) (j - k) r
          = c :: buildTempWord (d :: rest) (j - (k + 1)) r := by
        rw [hjk]
        simp [buildTempWord]
      refine ⟨by omega, ?_, ?_, ?_⟩
      · rw [hbuild]
        have hrhs : replaceLeftToRight r (c :: d :: rest)
            = c :: replaceLeftToRight r (d :: rest) := by
          simp only [replaceLeftToRight, hcd, if_false]
        rw [hrhs, ← heq]
        by_cases hc : c = '$'
        · have hd : d ≠ '$' := fun hd => hcd ⟨hc, hd⟩
          obtain ⟨t', ht'⟩ := hhead d rest rfl hd
          rw [ht']
          exact replaceLeftToRight_cons_cons_of_ne r c d t' hd
        · exact replaceLeftToRight_cons_of_ne r c _ hc
      · rw [hbuild, List.count_cons, @List.count_cons _ _ '$' c _, ← hcnt]
        omega
      · intro d' t hw hd'
        rw [hbuild]
        simp at hw
        exact ⟨_, by rw [hw.1]⟩

theorem rescanWord_eq (r : List Char) (hr : ∀ c ∈ r, c ≠ '$') :
    ∀ (fuel : Nat) (w : List Char), w.count '$' < 2 * fuel →
      rescanWord r fuel w = some (replaceLeftToRight r w)
  | 0, _, h => by omega
  | fuel + 1, w, h => by
    unfold rescanWord
    cases hfind : findDoubleDollar w 0 with
    | none =>
      simp [replaceLeftToRight_of_findDoubleDollar_none r w 0 hfind]
    | some j =>
      obtain ⟨_, heq, hcnt, _⟩ := findDoubleDollar_some r hr w 0 j hfind
      simp only [Nat.sub_zero] at heq hcnt
      simp only
      rw [rescanWord_eq r hr fuel (buildTempWord w j r) (by omega), heq]

theorem rescanWord_of_length_lt (r : List Char) (hr : ∀ c ∈ r, c ≠ '$') (fuel : Nat)
    (w : List Char) (h : w.length < fuel) :
    rescanWord r fuel w = some (replaceLeftToRight r w) := by
  apply rescanWord_eq r hr
  have := List.count_le_length '$' w
  omega

/-! ## Proofs: rows of the command array -/

theorem storeTokens_eq : ∀ (tokens : List String) (index : Int) (commandArray : Int → String),
    storeTokens tokens index commandArray =
      (fun x => if index ≤ x ∧ x < index + tokens.length
          then tokens.getD (x - index).toNat "" else commandArray x,
        index + tokens.length)
  | [], index, commandArray => by
    simp only [storeTokens, List.length_nil, Nat.cast_zero, add_zero]
    congr 1
    funext x
    have : ¬ (index ≤ x ∧ x < index) := by omega
    simp [this]
  | token :: rest, index, commandArray => by
    rw [storeTokens, storeTokens_eq rest (index + 1)]
    simp only [List.length_cons, Nat.cast_add, Nat.cast_one]
    congr 1
    · funext x
      by_cases h1 : index + 1 ≤ x ∧ x < index + 1 + rest.length
      · have h2 : index ≤ x ∧ x < index + (rest.length + 1) := by omega
        have h3 : (x - index).toNat = (x - (index + 1)).toNat + 1 := by omega
        simp [h1, h2, h3]
      · by_cases hx : x = index
        · subst hx
          simp
        · have h2 : ¬ (index ≤ x ∧ x < index + (rest.length + 1)) := by omega
          simp [h1, h2, Function.update_noteq hx]
    · omega

theorem rowsOf_length (commandArray : Int → String) (count : Nat) :
    (rowsOf commandArray count).length = count := by
  rw [rowsOf, List.length_map, List.length_range]

theorem rowsOf_storeTokens (tokens : List String) (commandArray : Int → String) :
    rowsOf (storeTokens tokens 0 commandArray).1 tokens.length = tokens := by
  rw [storeTokens_eq]
  apply List.ext_getElem
  · rw [rowsOf_length]
  · intro n h1 h2
    have h3 : (0 : Int) ≤ (n : Int) ∧ (n : Int) < 0 + (tokens.length : Int) := by omega
    simp only [rowsOf, List.getElem_map, List.getElem_range]
    simp only [h3, and_self, if_true, sub_zero, Int.toNat_ofNat]
    simp [List.getD, h2]

theorem replaceFromRow_eq (fuel : Nat) (r : List Char) (hr : ∀ c ∈ r, c ≠ '$') :
    ∀ (remaining : Nat) (i : Int) (commandArray : Int → String),
      (∀ x, i ≤ x → x < i + remaining → (commandArray x).length < fuel) →
      replaceFromRow fuel r remaining i commandArray =
        some (fun x => if i ≤ x ∧ x < i + remaining
          then String.mk (replaceLeftToRight r (commandArray x).data) else commandArray x)
  | 0, i, commandArray, _ => by
    simp only [replaceFromRow, Nat.cast_zero, add_zero]
    congr 1
    funext x
    have : ¬ (i ≤ x ∧ x < i) := by omega
    simp [this]
  | remaining + 1, i, commandArray, hlen => by
    have hi : rescanWord r fuel (commandArray i).data
        = some (replaceLeftToRight r (commandArray i).data) :=
      rescanWord_of_length_lt r hr fuel _ (hlen i (le_refl _) (by push_cast; omega))
    rw [replaceFromRow, hi]
    simp only
    rw [replaceFromRow_eq fuel r hr remaining (i + 1)]
    · congr 1
      funext x
      by_cases hx : x = i
      · subst hx
        have h1 : ¬ (x + 1 ≤ x ∧ x < x + 1 + remaining) := by omega
        have h2 : x ≤ x ∧ x < x + ((remaining + 1 : Nat) : Int) := by
          push_cast; omega
        rw [if_neg h1, if_pos h2, Function.update_same]
      · by_cases h1 : i + 1 ≤ x ∧ x < i + 1 + remaining
        · have h2 : i ≤ x ∧ x < i + ((remaining + 1 : Nat) : Int) := by
            push_cast; omega
          rw [if_pos h1, if_pos h2, Function.update_noteq hx]
        · have h2 : ¬ (i ≤ x ∧ x < i + ((remaining + 1 : Nat) : Int)) := by
            push_cast; omega
          rw [if_neg h1, if_neg h2, Function.update_noteq hx]
    · intro x hx1 hx2
      have hx : x ≠ i := by omega
      rw [Function.update_noteq hx]
      exact hlen x (by omega) (by push_cast; omega)

/-- With enough passes allowed, `replaceDoubleDollarSigns` returns, and the rows below
`arrayElementsUsed` hold the left-to-right substitution of what they held. -/
theorem replaceDoubleDollarSigns_eq (fuel : Nat) (pid : Int) (commandArray : Int → String)
    (arrayElementsUsed : Int)
    (hfuel : ∀ x, 0 ≤ x → x < arrayElementsUsed → (commandArray x).length < fuel) :
    replaceDoubleDollarSigns fuel pid commandArray arrayElementsUsed =
      some (fun x => if 0 ≤ x ∧ x < arrayElementsUsed
        then String.mk (replaceLeftToRight (sprintfD pid).data (commandArray x).data)
        else commandArray x) := by
  unfold replaceDoubleDollarSigns
  rw [replaceFromRow_eq fuel _ (sprintfD_no_dollar pid)]
  · congr 1
    funext x
    by_cases h : 0 ≤ x ∧ x < arrayElementsUsed
    · have h2 : 0 ≤ x ∧ x < 0 + ((arrayElementsUsed.toNat : Nat) : Int) := by omega
      simp only [h, h2, and_self, if_true]
    · have h2 : ¬ (0 ≤ x ∧ x < 0 + ((arrayElementsUsed.toNat : Nat) : Int)) := by omega
      simp only [h, h2, if_false]
  · intro x h1 h2
    exact hfuel x h1 (by omega)

theorem storeTokens_row (tokens : List String) (commandArray : Int → String) (n : Nat)
    (hn : n < tokens.length) :
    (storeTokens tokens 0 commandArray).1 (n : Int) = tokens[n] := by
  rw [storeTokens_eq]
  have h3 : (0 : Int) ≤ (n : Int) ∧ (n : Int) < 0 + (tokens.length : Int) := by omega
  simp only [h3, and_self, if_true, sub_zero, Int.toNat_ofNat]
  simp [List.getD, hn]

theorem storeTokens_row_outside (tokens : List String) (commandArray : Int → String) (x : Int)
    (hx : x < 0 ∨ (tokens.length : Int) ≤ x) :
    (storeTokens tokens 0 commandArray).1 x = commandArray x := by
  rw [storeTokens_eq]
  have h3 : ¬ ((0 : Int) ≤ x ∧ x < 0 + (tokens.length : Int)) := by omega
  simp only [h3, if_false]

theorem storeTokens_count (tokens : List String) (commandArray : Int → String) :
    (storeTokens tokens 0 commandArray).2 = tokens.length := by
  rw [storeTokens_eq]
  simp

/-! ## Proofs: the list of background processes -/

theorem forget_append (processID : Int) (rest : List Int) :
    ∀ kept : List Int, processID ∉ kept →
      forget processID (kept ++ processID :: rest) = some (kept ++ rest)
  | [], _ => by simp [forget]
  | k :: kept, h => by
    have hk : k ≠ processID := fun e => h (by simp [e])
    have hkept : processID ∉ kept := fun e => h (List.mem_cons_of_mem _ e)
    simp [forget, hk, forget_append processID rest kept hkept]

theorem remember_eq_append : ∀ (l : List Int) (p : Int), remember l p = l ++ [p]
  | [], p => rfl
  | first :: rest, p => by simp [remember, remember_eq_append rest p]

theorem statusReport_doneLine (processID : Int) (m : ChildExitMethod) (report : String)
    (h : statusReport processID m = some report) :
    outputStringWithANewline report = Event.write (doneLine processID m) := by
  cases m with
  | exited c =>
    simp only [statusReport, Option.some.injEq] at h
    simp [← h, outputStringWithANewline, doneLine, String.append_assoc]
  | signaled sg =>
    simp only [statusReport, Option.some.injEq] at h
    simp [← h, outputStringWithANewline, doneLine, String.append_assoc]
  | neither => simp [statusReport] at h

theorem checkStatusOfProcess_of_no_report (w : World) (p : Int) (s : Shell)
    (h : sweepReport w p = none) : checkStatusOfProcess w p s = some s := by
  unfold sweepReport at h
  unfold checkStatusOfProcess
  cases hpoll : w.pollStatus p with
  | none => rfl
  | some m =>
    rw [hpoll] at h
    simp only [Option.map_eq_none'] at h
    simp only [h]

theorem checkStatusOfProcess_of_report (w : World) (p : Int) (s : Shell) (ev : Event)
    (l : List Int) (h : sweepReport w p = some ev) (hl : forget p s.listOfProcesses = some l) :
    checkStatusOfProcess w p s
      = some { s with trace := s.trace ++ [ev], listOfProcesses := l } := by
  unfold sweepReport at h
  unfold checkStatusOfProcess
  cases hpoll : w.pollStatus p with
  | none => rw [hpoll] at h; cases h
  | some m =>
    rw [hpoll] at h
    simp only at h ⊢
    cases hrep : statusReport p m with
    | none => rw [hrep] at h; cases h
    | some report =>
      rw [hrep] at h
      simp only [Option.map_some', Option.some.injEq] at h
      simp only [hl, h]

/-- The sweep visits the pids in order; those without a report stay, the others are
reported and forgotten. -/
theorem checkEachProcess_eq (w : World) :
    ∀ (rest kept : List Int) (s : Shell),
      s.listOfProcesses = kept ++ rest →
      (∀ p ∈ kept, sweepReport w p = none) →
      checkEachProcess w rest s = some
        { s with
          listOfProcesses := kept ++ rest.filter (fun p => (sweepReport w p).isNone)
          trace := s.trace ++ rest.filterMap (sweepReport w) }
  | [], kept, s, hl, _ => by
    cases s
    simp only [List.append_nil] at hl
    simp [checkEachProcess, ← hl]
  | p :: rest, kept, s, hl, hkept => by
    unfold checkEachProcess
    cases hrep : sweepReport w p with
    | none =>
      have ih := checkEachProcess_eq w rest (kept ++ [p]) s (by simp [hl]) (by
        intro q hq
        rcases List.mem_append.1 hq with h | h
        · exact hkept q h
        · simp at h; rw [h]; exact hrep)
      rw [checkStatusOfProcess_of_no_report w p s hrep]
      simp only [ih]
      simp [List.filter_cons, List.filterMap_cons, hrep]
    | some ev =>
      have hnot : p ∉ kept := by
        intro hmem
        have := hkept p hmem
        rw [hrep] at this
        cases this
      have hf : forget p s.listOfProcesses = some (kept ++ rest) := by
        rw [hl]; exact forget_append p rest kept hnot
      rw [checkStatusOfProcess_of_report w p s ev _ hrep hf]
      simp only
      rw [checkEachProcess_eq w rest kept _ rfl hkept]
      simp [List.filter_cons, List.filterMap_cons, hrep]

theorem statusReport_of_ne_neither (processID : Int) (m : ChildExitMethod)
    (h : m ≠ ChildExitMethod.neither) :
    ∃ report, statusReport processID m = some report := by
  cases m with
  | exited c => exact ⟨_, rfl⟩
  | signaled sg => exact ⟨_, rfl⟩
  | neither => exact absurd rfl h

theorem sweepReport_of_three_outcomes (w : World) (p : Int)
    (h : w.pollStatus p ≠ some ChildExitMethod.neither) :
    sweepReport w p = (w.pollStatus p).map (fun m => Event.write (doneLine p m)) := by
  unfold sweepReport
  cases hpoll : w.pollStatus p with
  | none => rfl
  | some m =>
    have hm : m ≠ ChildExitMethod.neither := by
      intro e
      rw [hpoll, e] at h
      exact h rfl
    obtain ⟨report, hrep⟩ := statusReport_of_ne_neither p m hm
    simp only [hrep, Option.map_some', statusReport_doneLine p m report hrep]

theorem filterMap_eq_of_eq_on {α β : Type} (f g : α → Option β) :
    ∀ l : List α, (∀ x ∈ l, f x = g x) → l.filterMap f = l.filterMap g
  | [], _ => rfl
  | a :: l, h => by
    have ha : f a = g a := h a (List.mem_cons_self _ _)
    have hl : ∀ x ∈ l, f x = g x := fun x hx => h x (List.mem_cons_of_mem _ hx)
    simp only [List.filterMap_cons, ha, filterMap_eq_of_eq_on f g l hl]

theorem filter_eq_of_eq_on {α : Type} (f g : α → Bool) :
    ∀ l : List α, (∀ x ∈ l, f x = g x) → l.filter f = l.filter g
  | [], _ => rfl
  | a :: l, h => by
    have ha : f a = g a := h a (List.mem_cons_self _ _)
    have hl : ∀ x ∈ l, f x = g x := fun x hx => h x (List.mem_cons_of_mem _ hx)
    simp only [List.filter_cons, ha, filter_eq_of_eq_on f g l hl]

/-- The sweep never faults: it returns the shell with the unreported pids kept in order and
one report per other pid. -/
theorem checkForFinishedBackgroundProcesses_eq (w : World) (s : Shell) :
    checkForFinishedBackgroundProcesses w s = some
      { s with
        listOfProcesses := s.listOfProcesses.filter (fun p => (sweepReport w p).isNone)
        trace := s.trace ++ s.listOfProcesses.filterMap (sweepReport w) } := by
  unfold checkForFinishedBackgroundProcesses
  rw [checkEachProcess_eq w s.listOfProcesses [] s rfl (by simp)]
  simp

theorem killEachProcess_eq (w : World) :
    ∀ (rest : List Int) (s : Shell),
      s.listOfProcesses = rest →
      (∀ p ∈ rest, w.killedStatus p ≠ ChildExitMethod.neither) →
      killEachProcess w rest s = some
        { s with
          listOfProcesses := []
          trace := s.trace ++ rest.flatMap (fun p =>
            [Event.kill p, Event.write (doneLine p (w.killedStatus p))]) }
  | [], s, hl, _ => by
    cases s
    simp only at hl
    simp [killEachProcess, hl]
  | p :: rest, s, hl, hall => by
    obtain ⟨report, hrep⟩ := statusReport_of_ne_neither p (w.killedStatus p)
      (hall p (List.mem_cons_self _ _))
    have hev := statusReport_doneLine p _ report hrep
    have hf : forget p (p :: rest) = some rest := by simp [forget]
    unfold killEachProcess killAndReport
    simp only [Shell.emit, hrep, hl, hf, hev]
    rw [killEachProcess_eq w rest _ rfl (fun q hq => hall q (List.mem_cons_of_mem _ hq))]
    simp [List.flatMap_cons]

theorem writtenTexts_kill_reports (f : Int → String) : ∀ l : List Int,
    writtenTexts (l.flatMap (fun p => [Event.kill p, Event.write (f p)])) = l.map f
  | [] => rfl
  | p :: l => by
    have ih := writtenTexts_kill_reports f l
    rw [List.flatMap_cons, List.map_cons]
    show f p :: writtenTexts (l.flatMap (fun p => [Event.kill p, Event.write (f p)])) = _
    rw [ih]

/-! ## Proofs: the trailing-token scan -/

theorem storeTokens_row_append_right (args extra : List String) (commandArray : Int → String)
    (k : Nat) (hk : k < extra.length) :
    (storeTokens (args ++ extra) 0 commandArray).1 ((args.length : Int) + (k : Int))
      = extra[k] := by
  have hn : args.length + k < (args ++ extra).length := by
    rw [List.length_append]; omega
  have h := storeTokens_row (args ++ extra) commandArray (args.length + k) hn
  rw [Nat.cast_add] at h
  rw [h, List.getElem_append_right (by omega)]
  simp

theorem storeTokens_row_append_left (args extra : List String) (commandArray : Int → String)
    (x : Int) (hx : x < (args.length : Int)) :
    (storeTokens (args ++ extra) 0 commandArray).1 x = (storeTokens args 0 commandArray).1 x := by
  by_cases h0 : x < 0
  · rw [storeTokens_row_outside _ _ x (Or.inl h0), storeTokens_row_outside _ _ x (Or.inl h0)]
  · have hn : x.toNat < args.length := by omega
    have hn2 : x.toNat < (args ++ extra).length := by
      rw [List.length_append]; omega
    have hcast : ((x.toNat : Nat) : Int) = x := by omega
    have h1 := storeTokens_row (args ++ extra) commandArray x.toNat hn2
    have h2 := storeTokens_row args commandArray x.toNat hn
    rw [hcast] at h1 h2
    rw [h1, h2, List.getElem_append_left hn]

theorem rowsOf_storeTokens_take (args extra : List String) (commandArray : Int → String)
    (k : Nat) (hk : k ≤ args.length) :
    rowsOf (storeTokens (args ++ extra) 0 commandArray).1 k = args.take k := by
  apply List.ext_getElem
  · rw [rowsOf_length, List.length_take]; omega
  · intro n h1 h2
    have hn : n < k := by rwa [rowsOf_length] at h1
    have hrow := storeTokens_row_append_left args extra commandArray (n : Int) (by omega)
    have hrow2 := storeTokens_row args commandArray n (by omega)
    simp only [rowsOf, List.getElem_map, List.getElem_range, List.getElem_take]
    rw [hrow, hrow2]

theorem checkRedirection_le (commandArray : Int → String) (p : Parsed) :
    (checkRedirection commandArray p).arrayElementsUsed ≤ p.arrayElementsUsed := by
  unfold checkRedirection
  split_ifs <;> simp

theorem checkRedirection_background (commandArray : Int → String) (p : Parsed) :
    (checkRedirection commandArray p).actuallyRunInBackground = p.actuallyRunInBackground := by
  unfold checkRedirection
  split_ifs <;> rfl

theorem checkRedirection_congr (a b : Int → String) (p q : Parsed)
    (hab : ∀ x, x < p.arrayElementsUsed → a x = b x) (hpq : p.core = q.core) :
    (checkRedirection a p).core = (checkRedirection b q).core := by
  simp only [Parsed.core, Prod.mk.injEq] at hpq
  obtain ⟨h1, h2, h3, h4, h5⟩ := hpq
  have e2 : a (p.arrayElementsUsed - 2) = b (q.arrayElementsUsed - 2) := by
    rw [← h1]; exact hab _ (by omega)
  have e1 : a (q.arrayElementsUsed - 1) = b (q.arrayElementsUsed - 1) := by
    rw [← h1]; exact hab _ (by omega)
  unfold checkRedirection
  rw [e2]
  split_ifs <;> simp [Parsed.core, h1, h2, h3, h4, h5, e1]

theorem parseTrailingTokens_le (commandArray : Int → String) (n ubip : Int) :
    (parseTrailingTokens commandArray n ubip).arrayElementsUsed
      ≤ (checkBackgroundSymbol commandArray n ubip).arrayElementsUsed := by
  unfold parseTrailingTokens
  have h1 := checkRedirection_le commandArray (checkBackgroundSymbol commandArray n ubip)
  have h2 := checkRedirection_le commandArray
    (checkRedirection commandArray (checkBackgroundSymbol commandArray n ubip))
  simp only
  split_ifs <;> omega

theorem parseTrailingTokens_background (commandArray : Int → String) (n ubip : Int) :
    (parseTrailingTokens commandArray n ubip).actuallyRunInBackground
      = (checkBackgroundSymbol commandArray n ubip).actuallyRunInBackground := by
  unfold parseTrailingTokens
  simp only
  split_ifs <;> simp [checkRedirection_background]

/-- In foreground-only mode the scan never sets `actuallyRunInBackground`. -/
theorem parseTrailingTokens_foregroundOnly (commandArray : Int → String) (n ubip : Int)
    (h : ubip ≠ TRUE) :
    (parseTrailingTokens commandArray n ubip).actuallyRunInBackground = FALSE := by
  rw [parseTrailingTokens_background]
  unfold checkBackgroundSymbol
  split_ifs <;> simp [h]

theorem parseTrailingTokens_congr (a b : Int → String) (n m ubip ubip2 : Int)
    (hab : ∀ x, x < (checkBackgroundSymbol a n ubip).arrayElementsUsed → a x = b x)
    (hcore : (checkBackgroundSymbol a n ubip).core = (checkBackgroundSymbol b m ubip2).core) :
    (parseTrailingTokens a n ubip).core = (parseTrailingTokens b m ubip2).core := by
  have h1 := checkRedirection_congr a b _ _ hab hcore
  have hle := checkRedirection_le a (checkBackgroundSymbol a n ubip)
  have h2 := checkRedirection_congr a b _ _ (fun x hx => hab x (by omega)) h1
  have hneed : (checkRedirection a (checkBackgroundSymbol a n ubip)).needToCheckOneMoreTime
      = (checkRedirection b (checkBackgroundSymbol b m ubip2)).needToCheckOneMoreTime := by
    simp only [Parsed.core, Prod.mk.injEq] at h1
    exact h1.2.2.2.2
  unfold parseTrailingTokens
  simp only [hneed]
  split_ifs
  · exact h2
  · exact h1

theorem parse_output_then_input (a : Int → String) (n ubip : Int) (f g : String)
    (h1 : a (n - 1) = f) (hf : f ≠ "&") (h2 : a (n - 2) = "<")
    (h4 : a (n - 2 - 2) = ">") (h3 : a (n - 2 - 1) = g) :
    (parseTrailingTokens a n ubip).core = (n - 2 - 2, FALSE, f, g, TRUE) := by
  simp [parseTrailingTokens, checkRedirection, checkBackgroundSymbol, Parsed.core, h1, hf, h2,
    h4, h3, BACKGROUND_SYMBOL, REDIRECT_INPUT, REDIRECT_OUTPUT, TRUE, FALSE]

theorem parse_input_then_output (a : Int → String) (n ubip : Int) (f g : String)
    (h1 : a (n - 1) = g) (hg : g ≠ "&") (h2 : a (n - 2) = ">")
    (h4 : a (n - 2 - 2) = "<") (h3 : a (n - 2 - 1) = f) :
    (parseTrailingTokens a n ubip).core = (n - 2 - 2, FALSE, f, g, TRUE) := by
  simp [parseTrailingTokens, checkRedirection, checkBackgroundSymbol, Parsed.core, h1, hg, h2,
    h4, h3, BACKGROUND_SYMBOL, REDIRECT_INPUT, REDIRECT_OUTPUT, TRUE, FALSE]

theorem storeTokens_last_four (args : List String) (t0 t1 t2 t3 : String)
    (commandArray : Int → String) (n : Int)
    (hn : n = ((args ++ [t0, t1, t2, t3]).length : Int)) :
    (storeTokens (args ++ [t0, t1, t2, t3]) 0 commandArray).1 (n - 1) = t3 ∧
    (storeTokens (args ++ [t0, t1, t2, t3]) 0 commandArray).1 (n - 2) = t2 ∧
    (storeTokens (args ++ [t0, t1, t2, t3]) 0 commandArray).1 (n - 2 - 1) = t1 ∧
    (storeTokens (args ++ [t0, t1, t2, t3]) 0 commandArray).1 (n - 2 - 2) = t0 ∧
    (n - 2 - 2).toNat = args.length := by
  have hlen : n = (args.length : Int) + 4 := by
    rw [hn, List.length_append]; simp
  have e3 : n - 1 = (args.length : Int) + ((3 : Nat) : Int) := by omega
  have e2 : n - 2 = (args.length : Int) + ((2 : Nat) : Int) := by omega
  have e1 : n - 2 - 1 = (args.length : Int) + ((1 : Nat) : Int) := by omega
  have e0 : n - 2 - 2 = (args.length : Int) + ((0 : Nat) : Int) := by omega
  refine ⟨?_, ?_, ?_, ?_, by omega⟩
  · rw [e3, storeTokens_row_append_right args _ commandArray 3 (by simp)]; rfl
  · rw [e2, storeTokens_row_append_right args _ commandArray 2 (by simp)]; rfl
  · rw [e1, storeTokens_row_append_right args _ commandArray 1 (by simp)]; rfl
  · rw [e0, storeTokens_row_append_right args _ commandArray 0 (by simp)]; rfl

theorem scanTokens_eq_of_core (tokens : List String) (commandArray : Int → String)
    (ubip : Int) (n bg need : Int) (f g : String)
    (h : (parseTrailingTokens (storeTokens tokens 0 commandArray).1 tokens.length ubip).core
      = (n, bg, f, g, need)) :
    scanTokens tokens commandArray ubip
      = (rowsOf (storeTokens tokens 0 commandArray).1 n.toNat, f, g, bg) := by
  simp only [Parsed.core, Prod.mk.injEq] at h
  obtain ⟨h1, h2, h3, h4, _⟩ := h
  simp only [scanTokens, commandArgs, h1, h2, h3, h4]

theorem scanTokens_input_then_output (args : List String) (f g : String)
    (commandArray : Int → String) (ubip : Int) (hg : g ≠ "&") :
    scanTokens (args ++ ["<", f, ">", g]) commandArray ubip = (args, f, g, FALSE) := by
  obtain ⟨r3, r2, r1, r0, hk⟩ := storeTokens_last_four args "<" f ">" g commandArray _ rfl
  rw [scanTokens_eq_of_core _ _ _ _ _ _ _ _
    (parse_input_then_output _ _ ubip f g r3 hg r2 r0 r1), hk,
    rowsOf_storeTokens_take args _ commandArray args.length (le_refl _), List.take_length]

theorem scanTokens_output_then_input (args : List String) (f g : String)
    (commandArray : Int → String) (ubip : Int) (hf : f ≠ "&") :
    scanTokens (args ++ [">", g, "<", f]) commandArray ubip = (args, f, g, FALSE) := by
  obtain ⟨r3, r2, r1, r0, hk⟩ := storeTokens_last_four args ">" g "<" f commandArray _ rfl
  rw [scanTokens_eq_of_core _ _ _ _ _ _ _ _
    (parse_output_then_input _ _ ubip f g r3 hf r2 r0 r1), hk,
    rowsOf_storeTokens_take args _ commandArray args.length (le_refl _), List.take_length]

theorem storeTokens_background_row (args : List String) (commandArray : Int → String) :
    (storeTokens (args ++ ["&"]) 0 commandArray).1
      (((args ++ ["&"]).length : Int) - 1) = "&" := by
  have e : (((args ++ ["&"]).length : Int) - 1) = (args.length : Int) + ((0 : Nat) : Int) := by
    rw [List.length_append]; simp
  rw [e, storeTokens_row_append_right args _ commandArray 0 (by simp)]
  rfl

theorem checkBackgroundSymbol_of_background (args : List String)
    (commandArray : Int → String) (ubip : Int) :
    (checkBackgroundSymbol (storeTokens (args ++ ["&"]) 0 commandArray).1
        ((args ++ ["&"]).length : Int) ubip).core
      = ((args.length : Int), (if ubip = TRUE then TRUE else FALSE), "", "", FALSE) := by
  have hrow := storeTokens_background_row args commandArray
  have e : (((args ++ ["&"]).length : Int) - 1) = (args.length : Int) := by
    rw [List.length_append]; simp
  rw [e] at hrow
  simp only [checkBackgroundSymbol, BACKGROUND_SYMBOL, e, hrow, if_true, Parsed.core]

theorem storeTokens_last_row (args : List String) (commandArray : Int → String)
    (hargs : args ≠ []) :
    some ((storeTokens args 0 commandArray).1 ((args.length : Int) - 1)) = args.getLast? := by
  have hpos : 0 < args.length := List.length_pos.2 hargs
  have e : (args.length : Int) - 1 = ((args.length - 1 : Nat) : Int) := by omega
  rw [e, storeTokens_row args commandArray (args.length - 1) (by omega),
    List.getLast?_eq_getElem?, List.getElem?_eq_getElem (by omega)]

theorem checkBackgroundSymbol_of_other (args : List String) (commandArray : Int → String)
    (ubip : Int) (hargs : args ≠ []) (hlast : args.getLast? ≠ some "&") :
    (checkBackgroundSymbol (storeTokens args 0 commandArray).1 (args.length : Int) ubip).core
      = ((args.length : Int), FALSE, "", "", FALSE) := by
  have hrow := storeTokens_last_row args commandArray hargs
  have hne : (storeTokens args 0 commandArray).1 ((args.length : Int) - 1) ≠ "&" := by
    intro e
    rw [e] at hrow
    exact hlast hrow.symm
  simp only [checkBackgroundSymbol, BACKGROUND_SYMBOL, hne, if_false, Parsed.core]

theorem scanTokens_background_take (args : List String) (commandArray : Int → String)
    (ubip : Int) :
    ∃ k, (scanTokens (args ++ ["&"]) commandArray ubip).1 = args.take k := by
  have hle := parseTrailingTokens_le (storeTokens (args ++ ["&"]) 0 commandArray).1
    ((args ++ ["&"]).length : Int) ubip
  have hcore := checkBackgroundSymbol_of_background args commandArray ubip
  simp only [Parsed.core, Prod.mk.injEq] at hcore
  rw [hcore.1] at hle
  exact ⟨_, rowsOf_storeTokens_take args ["&"] commandArray _ (by omega)⟩

theorem scanTokens_background_flag (args : List String) (commandArray : Int → String)
    (ubip : Int) :
    (scanTokens (args ++ ["&"]) commandArray ubip).2.2.2
      = (if ubip = TRUE then TRUE else FALSE) := by
  have hcore := checkBackgroundSymbol_of_background args commandArray ubip
  simp only [Parsed.core, Prod.mk.injEq] at hcore
  simp only [scanTokens, parseTrailingTokens_background, hcore.2.1]

theorem scanTokens_background_foregroundOnly (args : List String)
    (commandArray : Int → String) (ubip : Int) (hargs : args ≠ []) (hmode : ubip ≠ TRUE)
    (hlast : args.getLast? ≠ some "&") :
    scanTokens (args ++ ["&"]) commandArray ubip = scanTokens args commandArray ubip := by
  have h1 := checkBackgroundSymbol_of_background args commandArray ubip
  have h2 := checkBackgroundSymbol_of_other args commandArray ubip hargs hlast
  rw [if_neg hmode] at h1
  have hn : (checkBackgroundSymbol (storeTokens (args ++ ["&"]) 0 commandArray).1
      ((args ++ ["&"]).length : Int) ubip).arrayElementsUsed = (args.length : Int) := by
    simp only [Parsed.core, Prod.mk.injEq] at h1
    exact h1.1
  have hcongr := parseTrailingTokens_congr (storeTokens (args ++ ["&"]) 0 commandArray).1
    (storeTokens args 0 commandArray).1 ((args ++ ["&"]).length : Int) (args.length : Int)
    ubip ubip
    (fun x hx => storeTokens_row_append_left args ["&"] commandArray x (by rw [hn] at hx; exact hx))
    (by rw [h1, h2])
  have hle := parseTrailingTokens_le (storeTokens (args ++ ["&"]) 0 commandArray).1
    ((args ++ ["&"]).length : Int) ubip
  rw [hn] at hle
  simp only [Parsed.core, Prod.mk.injEq] at hcongr
  obtain ⟨c1, c2, c3, c4, _⟩ := hcongr
  have hrows : ∀ k : Nat, k ≤ args.length →
      rowsOf (storeTokens args 0 commandArray).1 k = args.take k := by
    intro k hk
    have := rowsOf_storeTokens_take args [] commandArray k hk
    rwa [List.append_nil] at this
  simp only [scanTokens, commandArgs, ← c1, ← c2, ← c3, ← c4]
  rw [rowsOf_storeTokens_take args ["&"] commandArray _ (by omega), hrows _ (by omega)]

/-! ## Proofs: the main loop -/

theorem implementSigtstpLogic_status (s : Shell) :
    (implementSigtstpLogic s).statusType = s.statusType ∧
    (implementSigtstpLogic s).statusValue = s.statusValue := by
  unfold implementSigtstpLogic
  split_ifs <;> exact ⟨rfl, rfl⟩

theorem dealWithSigtstp_status (s : Shell) :
    (dealWithSigtstp s).statusType = s.statusType ∧
    (dealWithSigtstp s).statusValue = s.statusValue := by
  unfold dealWithSigtstp
  split_ifs
  · exact implementSigtstpLogic_status s
  · exact ⟨rfl, rfl⟩

theorem promptForLine_status : ∀ (k : Nat) (s : Shell),
    (promptForLine k s).statusType = s.statusType ∧
    (promptForLine k s).statusValue = s.statusValue
  | 0, _ => ⟨rfl, rfl⟩
  | k + 1, s => by
    have h1 := promptForLine_status k (dealWithSigtstp (s.emit [outputStringWithNoNewline ": "]))
    have h2 := dealWithSigtstp_status (s.emit [outputStringWithNoNewline ": "])
    unfold promptForLine
    exact ⟨h1.1.trans h2.1, h1.2.trans h2.2⟩

theorem waitForForegroundProcess_status : ∀ (k : Nat) (s : Shell),
    (waitForForegroundProcess k s).statusType = s.statusType ∧
    (waitForForegroundProcess k s).statusValue = s.statusValue
  | 0, _ => ⟨rfl, rfl⟩
  | k + 1, s => by
    have h1 := waitForForegroundProcess_status k (dealWithSigtstp s)
    have h2 := dealWithSigtstp_status s
    unfold waitForForegroundProcess
    exact ⟨h1.1.trans h2.1, h1.2.trans h2.2⟩

theorem readCommand_status (fuel : Nat) (w : World) (s s1 : Shell)
    (h : readCommand fuel w s = Outcome.running s1) :
    s1.statusType = s.statusType ∧ s1.statusValue = s.statusValue := by
  unfold readCommand at h
  rw [checkForFinishedBackgroundProcesses_eq] at h
  simp only at h
  split at h
  · cases h
  · have hp := promptForLine_status w.stopSignalsAtPrompt
      { s with
        listOfProcesses := s.listOfProcesses.filter (fun p => (sweepReport w p).isNone)
        trace := s.trace ++ s.listOfProcesses.filterMap (sweepReport w) }
    simp only [Outcome.running.injEq] at h
    rw [← h]
    exact hp

/-- A pass of `dispatch` after which the loop goes on changes the recorded status only by
running a command in the foreground whose wait completed. -/
theorem dispatch_status_change (w : World) (s1 s2 : Shell)
    (h : dispatch w s1 = Outcome.running s2)
    (hchange : s2.statusType ≠ s1.statusType ∨ s2.statusValue ≠ s1.statusValue) :
    s1.commandArray 0 ≠ STATUS_COMMAND ∧ s1.commandArray 0 ≠ CD_COMMAND ∧
    (s1.commandArray 0).data.headD (Char.ofNat 0) ≠ COMMENT_SYMBOL ∧
    (parseTrailingTokens s1.commandArray s1.arrayElementsUsed
      s1.usingBackgroundIsPossible).actuallyRunInBackground = FALSE ∧
    ((w.childExitMethod = ChildExitMethod.exited s2.statusValue ∧ s2.statusType = EXIT_VALUE) ∨
     (w.childExitMethod = ChildExitMethod.signaled s2.statusValue ∧
       s2.statusType = SIGNAL_RECEIVED)) := by
  unfold dispatch at h
  split_ifs at h with hexit hstatus hcd hone hzero hcomment
  · split at h <;> cases h
  · simp only [Outcome.running.injEq] at h
    subst h
    simp [Shell.emit] at hchange
  · simp only [Outcome.running.injEq] at h
    subst h
    simp [Shell.emit] at hchange
  · simp only [Outcome.running.injEq] at h
    subst h
    simp [Shell.emit] at hchange
  · simp only [Outcome.running.injEq] at h
    subst h
    simp at hchange
  · simp only [Outcome.running.injEq] at h
    subst h
    simp at hchange
  · refine ⟨hstatus, hcd, hcomment, ?_⟩
    unfold executeCommand at h
    simp only at h
    split_ifs at h with hfork hfg
    · refine ⟨hfg, ?_⟩
      cases hw : w.childExitMethod with
      | exited exitStatus =>
        rw [hw] at h
        simp only [recordTermination, Outcome.running.injEq] at h
        subst h
        exact Or.inl ⟨rfl, rfl⟩
      | signaled termSignal =>
        rw [hw] at h
        simp only [recordTermination, Outcome.running.injEq] at h
        subst h
        exact Or.inr ⟨rfl, rfl⟩
      | neither =>
        rw [hw] at h
        cases h
    · simp only [Outcome.running.injEq] at h
      subst h
      simp [Shell.emit, registerBackground] at hchange

theorem dispatch_of_status (w : World) (s : Shell) (h : s.commandArray 0 = STATUS_COMMAND) :
    dispatch w s = Outcome.running (s.emit (outputStatus s.statusType s.statusValue)) := by
  have hne : ¬ (STATUS_COMMAND = EXIT_COMMAND) := by decide
  simp only [dispatch, h, hne, if_true, if_false]

theorem storeTokens_rows_length_lt (tokens : List String) (commandArray : Int → String)
    (fuel : Nat) (hfuel : ∀ t ∈ tokens, t.length < fuel) (x : Int) (h0 : 0 ≤ x)
    (h1 : x < (storeTokens tokens 0 commandArray).2) :
    ((storeTokens tokens 0 commandArray).1 x).length < fuel := by
  rw [storeTokens_count] at h1
  apply hfuel
  have hx : x.toNat < tokens.length := by omega
  have hcast : ((x.toNat : Nat) : Int) = x := by omega
  have hrow := storeTokens_row tokens commandArray x.toNat hx
  rw [hcast] at hrow
  rw [hrow]
  exact List.getElem_mem _

/-- With enough passes allowed for the longest word of the line, the first three statements
of the loop body complete. -/
theorem readCommand_running (fuel : Nat) (w : World) (s : Shell)
    (hfuel : ∀ t ∈ w.tokens, t.length < fuel) :
    ∃ s1, readCommand fuel w s = Outcome.running s1 := by
  unfold readCommand
  rw [checkForFinishedBackgroundProcesses_eq]
  simp only [getCommandArray]
  rw [replaceDoubleDollarSigns_eq fuel w.pid _ _
    (storeTokens_rows_length_lt w.tokens _ fuel hfuel)]
  exact ⟨_, rfl⟩

theorem ne_builtin_of_comment (t : String)
    (h : t.data.headD (Char.ofNat 0) = COMMENT_SYMBOL) :
    t ≠ EXIT_COMMAND ∧ t ≠ STATUS_COMMAND ∧ t ≠ CD_COMMAND := by
  refine ⟨?_, ?_, ?_⟩ <;>
  · intro e
    rw [e] at h
    revert h
    decide

/-- For the `status` and `cd` built-ins, a comment, and a command run in the background
after a successful `fork`, `dispatch` returns to the loop with the recorded status
untouched. -/
theorem dispatch_keeps_status (w : World) (s1 : Shell)
    (hkind : s1.commandArray 0 = STATUS_COMMAND ∨ s1.commandArray 0 = CD_COMMAND ∨
      (s1.commandArray 0).data.headD (Char.ofNat 0) = COMMENT_SYMBOL ∨
      (s1.commandArray 0 ≠ EXIT_COMMAND ∧ w.spawnPid ≠ -1 ∧
        (parseTrailingTokens s1.commandArray s1.arrayElementsUsed
          s1.usingBackgroundIsPossible).actuallyRunInBackground = TRUE ∧
        w.slotPastCommandArgs (parseTrailingTokens s1.commandArray s1.arrayElementsUsed
          s1.usingBackgroundIsPossible).arrayElementsUsed = PastEndSlot.padding)) :
    ∃ s2, dispatch w s1 = Outcome.running s2 ∧
      s2.statusType = s1.statusType ∧ s2.statusValue = s1.statusValue := by
  have hexit : s1.commandArray 0 ≠ EXIT_COMMAND := by
    rcases hkind with h | h | h | h
    · rw [h]; decide
    · rw [h]; decide
    · exact (ne_builtin_of_comment _ h).1
    · exact h.1
  by_cases hstatus : s1.commandArray 0 = STATUS_COMMAND
  · exact ⟨_, dispatch_of_status w s1 hstatus, rfl, rfl⟩
  by_cases hcd : s1.commandArray 0 = CD_COMMAND
  · have h1 : ¬ (CD_COMMAND = EXIT_COMMAND) := by decide
    have h2 : ¬ (CD_COMMAND = STATUS_COMMAND) := by decide
    by_cases hone : s1.arrayElementsUsed = 1
    · have hd : dispatch w s1 = Outcome.running (s1.emit [changeDirectory w.home ""]) := by
        simp only [dispatch, hcd, h1, h2, hone, if_true, if_false]
      exact ⟨_, hd, rfl, rfl⟩
    · have hd : dispatch w s1
          = Outcome.running (s1.emit [changeDirectory w.home (s1.commandArray 1)]) := by
        simp only [dispatch, hcd, h1, h2, hone, if_true, if_false]
      exact ⟨_, hd, rfl, rfl⟩
  by_cases hzero : s1.arrayElementsUsed = 0
  · have hd : dispatch w s1 = Outcome.running s1 := by
      simp only [dispatch, hexit, hstatus, hcd, hzero, if_true, if_false]
    exact ⟨_, hd, rfl, rfl⟩
  by_cases hcomment : (s1.commandArray 0).data.headD (Char.ofNat 0) = COMMENT_SYMBOL
  · have hd : dispatch w s1 = Outcome.running s1 := by
      simp only [dispatch, hexit, hstatus, hcd, hzero, hcomment, if_true, if_false]
    exact ⟨_, hd, rfl, rfl⟩
  rcases hkind with h | h | h | h
  · exact absurd h hstatus
  · exact absurd h hcd
  · exact absurd h hcomment
  · have hbg : ¬ ((parseTrailingTokens s1.commandArray s1.arrayElementsUsed
        s1.usingBackgroundIsPossible).actuallyRunInBackground = FALSE) := by
      rw [h.2.2.1]; decide
    have hslot : ¬ (w.slotPastCommandArgs (parseTrailingTokens s1.commandArray
        s1.arrayElementsUsed s1.usingBackgroundIsPossible).arrayElementsUsed
          = PastEndSlot.listOfProcesses) := by
      rw [h.2.2.2]; decide
    have hd : dispatch w s1 = Outcome.running (registerBackground w.spawnPid
        (s1.emit [Event.fork (childProcess s1.commandArray
          (parseTrailingTokens s1.commandArray s1.arrayElementsUsed
            s1.usingBackgroundIsPossible))])) := by
      simp only [dispatch, hexit, hstatus, hcd, hzero, hcomment, executeCommand,
        h.2.1, hbg, hslot, if_true, if_false]
    exact ⟨_, hd, rfl, rfl⟩

/-! ## Proofs: signals and the wait region -/

theorem implementSigtstpLogic_of_normal (s : Shell) (h : s.usingBackgroundIsPossible = TRUE) :
    implementSigtstpLogic s =
      { s with
        usingBackgroundIsPossible := FALSE
        trace := s.trace ++
          [Event.write "\nEntering foreground-only mode (& is now ignored)\n"] } := by
  have hm : String.mk ("\nEntering foreground-only mode (& is now ignored)\n".data.take 50)
      = "\nEntering foreground-only mode (& is now ignored)\n" := by decide
  unfold implementSigtstpLogic
  rw [if_pos h, hm]

theorem implementSigtstpLogic_of_not_normal (s : Shell)
    (h : s.usingBackgroundIsPossible ≠ TRUE) :
    implementSigtstpLogic s =
      { s with
        usingBackgroundIsPossible := TRUE
        trace := s.trace ++ [Event.write "\nExiting foreground-only mode\n"] } := by
  have hm : String.mk ("\nExiting foreground-only mode\n".data.take 30)
      = "\nExiting foreground-only mode\n" := by decide
  unfold implementSigtstpLogic
  rw [if_neg h, hm]

theorem implementSigtstpLogic_mode (s : Shell) :
    (implementSigtstpLogic s).usingBackgroundIsPossible
      = (if s.usingBackgroundIsPossible = TRUE then FALSE else TRUE) ∧
    (implementSigtstpLogic s).weAreWaitingForForegroundProcessToStop
      = s.weAreWaitingForForegroundProcessToStop ∧
    (implementSigtstpLogic s).receivedSigtstp = s.receivedSigtstp ∧
    (implementSigtstpLogic s).commandArray = s.commandArray ∧
    (implementSigtstpLogic s).arrayElementsUsed = s.arrayElementsUsed := by
  unfold implementSigtstpLogic
  split_ifs <;> exact ⟨rfl, rfl, rfl, rfl, rfl⟩

theorem dealWithSigtstp_of_not_waiting (s : Shell)
    (h : s.weAreWaitingForForegroundProcessToStop = FALSE) :
    dealWithSigtstp s = implementSigtstpLogic s := by
  unfold dealWithSigtstp
  rw [if_pos h]

theorem dealWithSigtstp_of_waiting (s : Shell)
    (h : s.weAreWaitingForForegroundProcessToStop ≠ FALSE) :
    dealWithSigtstp s = { s with receivedSigtstp := TRUE } := by
  unfold dealWithSigtstp
  rw [if_neg h]

/-- Inside the wait region any positive number of stop signals leaves the same state as
one: `receivedSigtstp` is `TRUE` and nothing else has changed. -/
theorem waitForForegroundProcess_succ : ∀ (k : Nat) (s : Shell),
    s.weAreWaitingForForegroundProcessToStop = TRUE →
    waitForForegroundProcess (k + 1) s = { s with receivedSigtstp := TRUE }
  | 0, s, h => by
    have hne : s.weAreWaitingForForegroundProcessToStop ≠ FALSE := by rw [h]; decide
    simp only [waitForForegroundProcess, dealWithSigtstp_of_waiting s hne]
  | k + 1, s, h => by
    have hne : s.weAreWaitingForForegroundProcessToStop ≠ FALSE := by rw [h]; decide
    have ih := waitForForegroundProcess_succ k
      { s with receivedSigtstp := TRUE } h
    rw [waitForForegroundProcess, dealWithSigtstp_of_waiting s hne, ih]

theorem foregroundWait_zero (s : Shell) :
    foregroundWait 0 s =
      { s with weAreWaitingForForegroundProcessToStop := FALSE, receivedSigtstp := FALSE } := by
  have hne : ¬ (FALSE = TRUE) := by decide
  simp only [foregroundWait, waitForForegroundProcess, hne, if_false]

theorem foregroundWait_succ (k : Nat) (s : Shell) :
    foregroundWait (k + 1) s = implementSigtstpLogic
      { s with weAreWaitingForForegroundProcessToStop := FALSE, receivedSigtstp := FALSE } := by
  unfold foregroundWait
  simp only
  rw [waitForForegroundProcess_succ k _ rfl]
  simp only [if_true]

theorem executeCommand_of_foreground (w : World) (s : Shell) (hfork : w.spawnPid ≠ -1)
    (hfg : (parseTrailingTokens s.commandArray s.arrayElementsUsed
      s.usingBackgroundIsPossible).actuallyRunInBackground = FALSE) :
    executeCommand w s = recordTermination w.childExitMethod
      (foregroundWait w.stopSignalsDuringWait (s.emit [Event.fork (childProcess s.commandArray
        (parseTrailingTokens s.commandArray s.arrayElementsUsed
          s.usingBackgroundIsPossible))])) := by
  simp only [executeCommand, hfork, hfg, if_true, if_false]

theorem forget_eq_none_iff (processID : Int) :
    ∀ l : List Int, forget processID l = none ↔ processID ∉ l
  | [] => by simp [forget]
  | current :: next => by
    by_cases h : current = processID
    · simp [forget, h]
    · have hne : processID ≠ current := fun e => h e.symm
      simp [forget, h, hne, forget_eq_none_iff processID next]

theorem forget_of_mem (processID : Int) :
    ∀ l : List Int, processID ∈ l →
      ∃ before after, l = before ++ processID :: after ∧ processID ∉ before ∧
        forget processID l = some (before ++ after)
  | [], h => by simp at h
  | current :: next, h => by
    by_cases hc : current = processID
    · exact ⟨[], next, by simp [hc], by simp, by simp [forget, hc]⟩
    · have hmem : processID ∈ next := by
        rcases List.mem_cons.1 h with e | e
        · exact absurd e.symm hc
        · exact e
      obtain ⟨before, after, hl, hnot, hf⟩ := forget_of_mem processID next hmem
      refine ⟨current :: before, after, by simp [hl], ?_, by simp [forget, hc, hf]⟩
      intro hin
      rcases List.mem_cons.1 hin with e | e
      · exact hc e.symm
      · exact hnot e

theorem forget_eq_erase (processID : Int) :
    ∀ l : List Int, processID ∈ l → forget processID l = some (l.erase processID)
  | [], h => by simp at h
  | current :: next, h => by
    by_cases hc : current = processID
    · simp [forget, hc]
    · have hmem : processID ∈ next := by
        rcases List.mem_cons.1 h with e | e
        · exact absurd e.symm hc
        · exact e
      simp [forget, hc, forget_eq_erase processID next hmem, List.erase_cons]

/-! ## Proofs: the rescan loop -/

theorem rescanWord_result (r : List Char) :
    ∀ (fuel : Nat) (word result : List Char),
      rescanWord r fuel word = some result → findDoubleDollar result 0 = none
  | 0, _, _, h => by simp [rescanWord] at h
  | fuel + 1, word, result, h => by
    unfold rescanWord at h
    cases hfind : findDoubleDollar word 0 with
    | none =>
      rw [hfind] at h
      simp only [Option.some.injEq] at h
      rw [← h]
      exact hfind
    | some j =>
      rw [hfind] at h
      exact rescanWord_result r fuel _ result h

/-! ## Proofs: what a pass of the loop writes -/

theorem stdoutText_append : ∀ (a b : List Event),
    stdoutText (a ++ b) = stdoutText a ++ stdoutText b
  | [], b => by simp [stdoutText]
  | Event.write text :: a, b => by
    show text ++ stdoutText (a ++ b) = (text ++ stdoutText a) ++ stdoutText b
    rw [stdoutText_append a b, String.append_assoc]
  | Event.perror _ :: a, b => by simp [stdoutText, stdoutText_append a b]
  | Event.chdir _ :: a, b => by simp [stdoutText, stdoutText_append a b]
  | Event.kill _ :: a, b => by simp [stdoutText, stdoutText_append a b]
  | Event.fork _ :: a, b => by simp [stdoutText, stdoutText_append a b]

theorem substituted_status (pid : Int) : substituted pid "status" = "status" := by
  apply String.ext
  simp [substituted, replaceLeftToRight]

theorem substituted_row_zero (pid : Int) (t : String) (rest : List String)
    (m : Int → String) :
    (if (0 : Int) ≤ 0 ∧ (0 : Int) < (storeTokens (t :: rest) 0 m).2
      then String.mk (replaceLeftToRight (sprintfD pid).data
        ((storeTokens (t :: rest) 0 m).1 0).data)
      else (storeTokens (t :: rest) 0 m).1 0) = substituted pid t := by
  have hcount := storeTokens_count (t :: rest) m
  have hrow := storeTokens_row (t :: rest) m 0 (by simp)
  simp only [Nat.cast_zero, List.getElem_cons_zero] at hrow
  have hpos : (0 : Int) ≤ 0 ∧ (0 : Int) < (storeTokens (t :: rest) 0 m).2 := by
    rw [hcount]
    simp only [List.length_cons, Nat.cast_add, Nat.cast_one]
    omega
  rw [if_pos hpos, hrow]
  rfl

/-- With enough passes allowed, reading a line completes and row 0 then holds the first word
of the line after the `$$` substitution. -/
theorem readCommand_first_row (fuel : Nat) (w : World) (s : Shell) (t : String)
    (rest : List String) (htokens : w.tokens = t :: rest)
    (hfuel : ∀ t ∈ w.tokens, t.length < fuel) :
    ∃ s1, readCommand fuel w s = Outcome.running s1 ∧
      s1.commandArray 0 = substituted w.pid t := by
  unfold readCommand
  rw [checkForFinishedBackgroundProcesses_eq]
  simp only [getCommandArray]
  rw [replaceDoubleDollarSigns_eq fuel w.pid _ _
    (storeTokens_rows_length_lt w.tokens _ fuel hfuel)]
  refine ⟨_, rfl, ?_⟩
  simp only [htokens]
  exact substituted_row_zero w.pid t rest _

/-- The frame of one pass through the main loop: with enough passes allowed the read
completes; the `status` and `cd` built-ins, a comment, and a command run in the background
whose store past the end of `commandArgs` landed in padding return to the loop with
`statusType` and `statusValue` as they were; and whenever the loop goes on with a changed
status, a command was run in the foreground and its wait completed with that exit code or
signal. -/
theorem iteration_status_frame (fuel : Nat) (w : World) (s : Shell)
    (hfuel : ∀ t ∈ w.tokens, t.length < fuel) :
    ∃ s1, readCommand fuel w s = Outcome.running s1 ∧
      ((s1.commandArray 0 = STATUS_COMMAND ∨ s1.commandArray 0 = CD_COMMAND ∨
          (s1.commandArray 0).data.headD (Char.ofNat 0) = COMMENT_SYMBOL ∨
          (s1.commandArray 0 ≠ EXIT_COMMAND ∧ w.spawnPid ≠ -1 ∧
            (parseTrailingTokens s1.commandArray s1.arrayElementsUsed
              s1.usingBackgroundIsPossible).actuallyRunInBackground = TRUE ∧
            w.slotPastCommandArgs (parseTrailingTokens s1.commandArray s1.arrayElementsUsed
              s1.usingBackgroundIsPossible).arrayElementsUsed = PastEndSlot.padding)) →
        ∃ s2, dispatch w s1 = Outcome.running s2 ∧
          s2.statusType = s.statusType ∧ s2.statusValue = s.statusValue) ∧
      (∀ s2, dispatch w s1 = Outcome.running s2 →
        (s2.statusType ≠ s.statusType ∨ s2.statusValue ≠ s.statusValue) →
        (parseTrailingTokens s1.commandArray s1.arrayElementsUsed
          s1.usingBackgroundIsPossible).actuallyRunInBackground = FALSE ∧
        ((w.childExitMethod = ChildExitMethod.exited s2.statusValue ∧
            s2.statusType = EXIT_VALUE) ∨
          (w.childExitMethod = ChildExitMethod.signaled s2.statusValue ∧
            s2.statusType = SIGNAL_RECEIVED))) := by
  obtain ⟨s1, hread⟩ := readCommand_running fuel w s hfuel
  obtain ⟨ht, hv⟩ := readCommand_status fuel w s s1 hread
  refine ⟨s1, hread, ?_, ?_⟩
  · intro hkind
    obtain ⟨s2, hd, h1, h2⟩ := dispatch_keeps_status w s1 hkind
    exact ⟨s2, hd, h1.trans ht, h2.trans hv⟩
  · intro s2 hdispatch hchange
    rw [← ht, ← hv] at hchange
    obtain ⟨_, _, _, h4, h5⟩ := dispatch_status_change w s1 s2 hdispatch hchange
    exact ⟨h4, h5⟩

/-! ## Claims -/

/-- C1: for every token list and every shell pid, `replaceDoubleDollarSigns` (given enough
passes for the longest token) returns, and the rows that held the tokens then hold, token by
token, the result of replacing left to right and without overlap every `$$` by the decimal
string of the pid; the number of tokens is unchanged; the token `$$$$` becomes the decimal
string written twice, and a token without `$$` is unchanged. -/
theorem replaceDoubleDollarSigns_rewrites_tokens (tokens : List String) (pid : Int)
    (commandArray : Int → String) (fuel : Nat) (hfuel : ∀ t ∈ tokens, t.length < fuel) :
    ∃ result,
      replaceDoubleDollarSigns fuel pid (storeTokens tokens 0 commandArray).1 tokens.length
        = some result ∧
      rowsOf result tokens.length = tokens.map (substituted pid) ∧
      (rowsOf result tokens.length).length = tokens.length ∧
      substituted pid "$$$$" = sprintfD pid ++ sprintfD pid ∧
      ∀ t, ¬ "$$".data <:+: t.data → substituted pid t = t := by
  have hlen : ∀ x : Int, 0 ≤ x → x < tokens.length →
      ((storeTokens tokens 0 commandArray).1 x).length < fuel := by
    intro x h0 h1
    apply hfuel
    have hx : x.toNat < tokens.length := by omega
    have hcast : ((x.toNat : Nat) : Int) = x := by omega
    have hrow := storeTokens_row tokens commandArray x.toNat hx
    rw [hcast] at hrow
    rw [hrow]
    exact List.getElem_mem _
  refine ⟨_, replaceDoubleDollarSigns_eq fuel pid _ _ hlen, ?_, ?_, ?_, ?_⟩
  · apply List.ext_getElem
    · rw [rowsOf_length, List.length_map]
    · intro n h1 h2
      have hn : n < tokens.length := by simpa using h2
      have h3 : (0 : Int) ≤ (n : Int) ∧ (n : Int) < (tokens.length : Int) := by omega
      have hrow := storeTokens_row tokens commandArray n hn
      simp only [rowsOf, List.getElem_map, List.getElem_range]
      rw [if_pos h3, hrow]
      rfl
  · rw [rowsOf_length]
  · apply String.ext
    simp [substituted, replaceLeftToRight]
  · intro t ht
    have hnone := findDoubleDollar_none_of_not_infix t.data 0 ht
    simp only [substituted, replaceLeftToRight_of_findDoubleDollar_none _ t.data 0 hnone]

/-- Witness for C1: the tokens `echo`, `$$$$` and `a$$b` in a shell with pid 4242. -/
theorem replaceDoubleDollarSigns_rewrites_tokens_witness :
    (∀ t ∈ ["echo", "$$$$", "a$$b"], t.length < 5) ∧
    ∃ result,
      replaceDoubleDollarSigns 5 4242 (storeTokens ["echo", "$$$$", "a$$b"] 0 (fun _ => "")).1 3
        = some result ∧
      rowsOf result 3 = ["echo", "42424242", "a4242b"] :=
  ⟨by decide, by
    obtain ⟨result, h1, h2, _⟩ := replaceDoubleDollarSigns_rewrites_tokens
      ["echo", "$$$$", "a$$b"] 4242 (fun _ => "") 5 (by decide)
    exact ⟨result, h1, by rw [show (3 : Nat) = ["echo", "$$$$", "a$$b"].length from rfl, h2]; decide⟩⟩

/-- C2: an empty line typed after `status` is not a no-op.  The line leaves
`arrayElementsUsed` at 0 but row 0 still holds `status`, and the main loop compares row 0 with
the built-in names before it looks at `arrayElementsUsed`: the status is printed a second
time after the second prompt. -/
theorem blank_line_after_status_prints_status_again :
    (main 5 (fun _ => "") [quietWorld ["status"], quietWorld []]).shell?.map
        (fun s => stdoutText s.trace)
      = some ": exit value 0\n: exit value 0\n" := by
  decide

/-- C3 as stated fails: with `args = ["echo", "hi", "&"]` in foreground-only mode, the line
`echo hi & &` keeps an `&` in the argument vector while the line `echo hi &` does not, so
the scan of `args ++ ["&"]` does not give the argument vector of `args`. -/
theorem background_symbol_counterexample :
    (["echo", "hi", "&"] : List String) ≠ [] ∧
    scanTokens (["echo", "hi", "&"] ++ ["&"]) (fun _ => "") FALSE
      = (["echo", "hi", "&"], "", "", FALSE) ∧
    scanTokens ["echo", "hi", "&"] (fun _ => "") FALSE = (["echo", "hi"], "", "", FALSE) := by
  decide

/-- C3 (amended): for every token sequence `args ++ ["&"]` with `args` non-empty and every
mode, the scan never puts the final `&` in the argument vector (the vector is an initial
segment of `args`) and sets `actuallyRunInBackground` to `TRUE` exactly when
`usingBackgroundIsPossible` is `TRUE`; in foreground-only mode, when the last token of `args`
is not itself `&`, the argument vector and redirection files are those of `args` alone and
the command runs in the foreground. -/
theorem background_symbol_stripped (args : List String) (commandArray : Int → String)
    (usingBackgroundIsPossible : Int) (hargs : args ≠ []) :
    (∃ k, (scanTokens (args ++ ["&"]) commandArray usingBackgroundIsPossible).1 = args.take k) ∧
    ((scanTokens (args ++ ["&"]) commandArray usingBackgroundIsPossible).2.2.2 = TRUE
      ↔ usingBackgroundIsPossible = TRUE) ∧
    (usingBackgroundIsPossible ≠ TRUE → args.getLast? ≠ some "&" →
      scanTokens (args ++ ["&"]) commandArray usingBackgroundIsPossible
        = scanTokens args commandArray usingBackgroundIsPossible ∧
      (scanTokens (args ++ ["&"]) commandArray usingBackgroundIsPossible).2.2.2 = FALSE) := by
  refine ⟨scanTokens_background_take args commandArray _, ?_, ?_⟩
  · rw [scanTokens_background_flag]
    by_cases h : usingBackgroundIsPossible = TRUE
    · simp [h]
    · simp [h, TRUE, FALSE]
  · intro hmode hlast
    refine ⟨scanTokens_background_foregroundOnly args commandArray _ hargs hmode hlast, ?_⟩
    rw [scanTokens_background_flag, if_neg hmode]

/-- Witness for C3: the line `sleep 5 > out &` in foreground-only mode. -/
theorem background_symbol_stripped_witness :
    (["sleep", "5", ">", "out"] : List String) ≠ [] ∧
    (FALSE ≠ TRUE ∧ (["sleep", "5", ">", "out"] : List String).getLast? ≠ some "&") ∧
    scanTokens (["sleep", "5", ">", "out"] ++ ["&"]) (fun _ => "") FALSE
      = scanTokens ["sleep", "5", ">", "out"] (fun _ => "") FALSE ∧
    scanTokens ["sleep", "5", ">", "out"] (fun _ => "") FALSE
      = (["sleep", "5"], "", "out", FALSE) :=
  ⟨by decide, by decide,
    ((background_symbol_stripped ["sleep", "5", ">", "out"] (fun _ => "") FALSE
      (by decide)).2.2 (by decide) (by decide)).1,
    by decide⟩

/-- C4: for every argument list `args` and all file tokens `f` and `g` other than `&`, the
scan parses `args ++ ["<", f, ">", g]` and `args ++ [">", g, "<", f]` to the same result:
argument vector exactly `args`, input file `f`, output file `g` (and no background run). -/
theorem redirections_in_either_order (args : List String) (f g : String)
    (commandArray : Int → String) (usingBackgroundIsPossible : Int)
    (hf : f ≠ "&") (hg : g ≠ "&") :
    scanTokens (args ++ ["<", f, ">", g]) commandArray usingBackgroundIsPossible
      = (args, f, g, FALSE) ∧
    scanTokens (args ++ [">", g, "<", f]) commandArray usingBackgroundIsPossible
      = (args, f, g, FALSE) :=
  ⟨scanTokens_input_then_output args f g commandArray _ hg,
    scanTokens_output_then_input args f g commandArray _ hf⟩

/-- Witness for C4: `sort -r < in > out` and `sort -r > out < in`. -/
theorem redirections_in_either_order_witness :
    ("in" ≠ "&" ∧ "out" ≠ "&") ∧
    scanTokens (["sort", "-r"] ++ ["<", "in", ">", "out"]) (fun _ => "") TRUE
      = (["sort", "-r"], "in", "out", FALSE) ∧
    scanTokens (["sort", "-r"] ++ [">", "out", "<", "in"]) (fun _ => "") TRUE
      = (["sort", "-r"], "in", "out", FALSE) :=
  ⟨by decide,
    redirections_in_either_order ["sort", "-r"] "in" "out" (fun _ => "") TRUE
      (by decide) (by decide)⟩

/-- C5: when a foreground command's wait completes with a normal exit of code `N`
(0 ≤ N ≤ 255), `executeCommand` returns to the loop, and the next pass of the loop, on a line
whose first word is `status`, completes and appends to the trace exactly the two writes
`exit value ` and `N` with a newline, so that standard output grows by exactly
`exit value N` and a newline; when the wait completes with termination by signal `S`, the
two writes are `terminated by signal ` and `S` with a newline. -/
theorem status_after_foreground_command (w : World) (s : Shell) (N S : Int)
    (hfg : (parseTrailingTokens s.commandArray s.arrayElementsUsed
      s.usingBackgroundIsPossible).actuallyRunInBackground = FALSE)
    (hfork : w.spawnPid ≠ -1) :
    (0 ≤ N → N ≤ 255 → w.childExitMethod = ChildExitMethod.exited N →
      ∃ s1, executeCommand w s = Outcome.running s1 ∧
        ∀ (fuel : Nat) (w2 : World) (rest : List String),
          w2.tokens = "status" :: rest → (∀ t ∈ w2.tokens, t.length < fuel) →
          ∃ s2 s3, readCommand fuel w2 s1 = Outcome.running s2 ∧
            mainIteration fuel w2 s1 = Outcome.running s3 ∧
            s3.trace = s2.trace ++
              [Event.write "exit value ", Event.write (sprintfD N ++ "\n")] ∧
            stdoutText s3.trace
              = stdoutText s2.trace ++ ("exit value " ++ sprintfD N ++ "\n")) ∧
    (w.childExitMethod = ChildExitMethod.signaled S →
      ∃ s1, executeCommand w s = Outcome.running s1 ∧
        ∀ (fuel : Nat) (w2 : World) (rest : List String),
          w2.tokens = "status" :: rest → (∀ t ∈ w2.tokens, t.length < fuel) →
          ∃ s2 s3, readCommand fuel w2 s1 = Outcome.running s2 ∧
            mainIteration fuel w2 s1 = Outcome.running s3 ∧
            s3.trace = s2.trace ++
              [Event.write "terminated by signal ", Event.write (sprintfD S ++ "\n")] ∧
            stdoutText s3.trace
              = stdoutText s2.trace ++ ("terminated by signal " ++ sprintfD S ++ "\n")) := by
  have hnext : ∀ (s1 : Shell) (fuel : Nat) (w2 : World) (rest : List String),
      w2.tokens = "status" :: rest → (∀ t ∈ w2.tokens, t.length < fuel) →
      ∃ s2, readCommand fuel w2 s1 = Outcome.running s2 ∧
        mainIteration fuel w2 s1
          = Outcome.running (s2.emit (outputStatus s1.statusType s1.statusValue)) := by
    intro s1 fuel w2 rest htokens hfuel
    obtain ⟨s2, hread, hrow⟩ := readCommand_first_row fuel w2 s1 "status" rest htokens hfuel
    rw [substituted_status] at hrow
    obtain ⟨ht, hv⟩ := readCommand_status fuel w2 s1 s2 hread
    refine ⟨s2, hread, ?_⟩
    simp only [mainIteration, hread]
    rw [dispatch_of_status w2 s2 hrow, ht, hv]
  have hne : ¬ (SIGNAL_RECEIVED = EXIT_VALUE) := by decide
  refine ⟨?_, ?_⟩
  · intro _ _ hexit
    have hrun := executeCommand_of_foreground w s hfork hfg
    rw [hexit] at hrun
    refine ⟨_, hrun, ?_⟩
    intro fuel w2 rest htokens hfuel
    obtain ⟨s2, hread, hiter⟩ := hnext _ fuel w2 rest htokens hfuel
    refine ⟨s2, _, hread, hiter, ?_, ?_⟩
    · simp only [Shell.emit, outputStatus, if_true, outputStringWithNoNewline,
        outputStringWithANewline]
    · simp only [Shell.emit, outputStatus, if_true, outputStringWithNoNewline,
        outputStringWithANewline, stdoutText_append, stdoutText, String.append_assoc,
        String.append_empty]
  · intro hsig
    have hrun := executeCommand_of_foreground w s hfork hfg
    rw [hsig] at hrun
    refine ⟨_, hrun, ?_⟩
    intro fuel w2 rest htokens hfuel
    obtain ⟨s2, hread, hiter⟩ := hnext _ fuel w2 rest htokens hfuel
    refine ⟨s2, _, hread, hiter, ?_, ?_⟩
    · simp only [Shell.emit, outputStatus, hne, if_false, outputStringWithNoNewline,
        outputStringWithANewline]
    · simp only [Shell.emit, outputStatus, hne, if_false, outputStringWithNoNewline,
        outputStringWithANewline, stdoutText_append, stdoutText, String.append_assoc,
        String.append_empty]

/-- Witness for C5: `ls` run in the foreground exits with code 3 and `status` is entered on
the next line: after the prompt the shell writes `exit value 3`. -/
theorem status_after_foreground_command_witness :
    ((parseTrailingTokens (sampleShell ["ls"] []).commandArray
        (sampleShell ["ls"] []).arrayElementsUsed
        (sampleShell ["ls"] []).usingBackgroundIsPossible).actuallyRunInBackground = FALSE ∧
      ({ quietWorld ["ls"] with childExitMethod := ChildExitMethod.exited 3 } : World).spawnPid
        ≠ -1) ∧
    ∃ s1 s2 s3,
      executeCommand { quietWorld ["ls"] with childExitMethod := ChildExitMethod.exited 3 }
        (sampleShell ["ls"] []) = Outcome.running s1 ∧
      readCommand 7 (quietWorld ["status"]) s1 = Outcome.running s2 ∧
      mainIteration 7 (quietWorld ["status"]) s1 = Outcome.running s3 ∧
      s3.trace = s2.trace ++ [Event.write "exit value ", Event.write "3\n"] ∧
      stdoutText s3.trace = ": exit value 3\n" :=
  ⟨by decide, by
    obtain ⟨s1, h1, hnext⟩ := (status_after_foreground_command
      { quietWorld ["ls"] with childExitMethod := ChildExitMethod.exited 3 }
      (sampleShell ["ls"] []) 3 0 (by decide) (by decide)).1 (by decide) (by decide) rfl
    obtain ⟨s2, s3, hr, hi, ht, hout⟩ := hnext 7 (quietWorld ["status"]) [] rfl (by decide)
    have e1 : s1 = ((executeCommand
        { quietWorld ["ls"] with childExitMethod := ChildExitMethod.exited 3 }
        (sampleShell ["ls"] [])).shell?.getD (sampleShell [] [])) := by
      rw [h1]; rfl
    have e2 : s2 = ((readCommand 7 (quietWorld ["status"]) s1).shell?.getD
        (sampleShell [] [])) := by
      rw [hr]; rfl
    refine ⟨s1, s2, s3, h1, hr, hi, ?_, ?_⟩
    · rw [ht]; rfl
    · rw [hout, e2, e1]
      decide⟩

/-- C6: the scenario of the claim fails on the code.  For `sleep 1 &` the argument vector
has two entries, so `commandArgs` is an array of two pointers and the store
`commandArgs[arrayElementsUsed] = NULL` writes a third; in a frame where that slot holds the
parameter `listOfProcesses`, the background branch announces the pid and then
`remember(listOfProcesses, spawnPid)` reads through the null pointer: the loop does not go
on, and the `status` typed next is never answered. -/
theorem background_launch_faults_before_status :
    (main 6 (fun _ => "") [quietWorld ["sleep", "1", "&"], quietWorld ["status"]]).isFault
      = true ∧
    (parseTrailingTokens (storeTokens ["sleep", "1", "&"] 0 (fun _ => "")).1 3
      TRUE).arrayElementsUsed = 2 ∧
    (quietWorld ["sleep", "1", "&"]).slotPastCommandArgs 2 = PastEndSlot.listOfProcesses := by
  decide

/-- C7: for every duplicate-free registry and every outcome of the non-blocking checks in
which each pid has either not exited, exited with a code or been killed by a signal,
`checkForFinishedBackgroundProcesses` returns, leaves in the registry exactly the pids whose
check said they have not exited, in their original order, and writes exactly one report
`background pid N is done: ...` for each other pid, in registry order. -/
theorem sweep_reports_and_removes_finished (w : World) (s : Shell)
    (_hnodup : s.listOfProcesses.Nodup)
    (houtcome : ∀ p ∈ s.listOfProcesses, w.pollStatus p ≠ some ChildExitMethod.neither) :
    checkForFinishedBackgroundProcesses w s = some
      { s with
        listOfProcesses := s.listOfProcesses.filter (fun p => (w.pollStatus p).isNone)
        trace := s.trace ++ s.listOfProcesses.filterMap
          (fun p => (w.pollStatus p).map (fun m => Event.write (doneLine p m))) } := by
  have hrep : ∀ p ∈ s.listOfProcesses,
      sweepReport w p = (w.pollStatus p).map (fun m => Event.write (doneLine p m)) :=
    fun p hp => sweepReport_of_three_outcomes w p (houtcome p hp)
  have hkeep : ∀ p ∈ s.listOfProcesses,
      (sweepReport w p).isNone = (w.pollStatus p).isNone := by
    intro p hp
    rw [hrep p hp]
    cases w.pollStatus p <;> rfl
  rw [checkForFinishedBackgroundProcesses_eq,
    filter_eq_of_eq_on _ _ s.listOfProcesses hkeep,
    filterMap_eq_of_eq_on _ _ s.listOfProcesses hrep]

/-- Witness for C7: of the processes 10, 11, 12, 13, process 11 has exited with code 3 and 13
was killed by signal 15. -/
theorem sweep_reports_and_removes_finished_witness :
    ((sampleShell [] [10, 11, 12, 13]).listOfProcesses.Nodup ∧
      ∀ p ∈ (sampleShell [] [10, 11, 12, 13]).listOfProcesses,
        (sweepWorld []).pollStatus p ≠ some ChildExitMethod.neither) ∧
    (checkForFinishedBackgroundProcesses (sweepWorld []) (sampleShell [] [10, 11, 12, 13])).map
        (fun s => (s.listOfProcesses, s.trace))
      = some ([10, 12],
          [Event.write "background pid 11 is done: exit value 3\n",
           Event.write "background pid 13 is done: terminated by signal 15\n"]) :=
  ⟨by decide, by
    rw [sweep_reports_and_removes_finished (sweepWorld []) (sampleShell [] [10, 11, 12, 13])
      (by decide) (by decide)]
    decide⟩

/-- C8: for every duplicate-free registry of `n` background pids each of which, once killed
and waited on, reports a normal exit or a terminating signal, `prepForExit` returns having
sent one kill and written one `background pid N is done: ...` report per registered pid, in
registry order (`n` reports), and leaves the registry empty; when the first token is `exit`
the main loop then stops and `main` returns 0. -/
theorem prepForExit_reports_all_and_main_returns (w : World) (s : Shell)
    (_hnodup : s.listOfProcesses.Nodup)
    (hdone : ∀ p ∈ s.listOfProcesses, w.killedStatus p ≠ ChildExitMethod.neither) :
    prepForExit w s = some
      { s with
        listOfProcesses := []
        trace := s.trace ++ s.listOfProcesses.flatMap (fun p =>
          [Event.kill p, Event.write (doneLine p (w.killedStatus p))]) } ∧
    (writtenTexts (s.listOfProcesses.flatMap (fun p =>
        [Event.kill p, Event.write (doneLine p (w.killedStatus p))]))).length
      = s.listOfProcesses.length ∧
    (s.commandArray 0 = EXIT_COMMAND →
      ∀ (fuel : Nat) (s0 : Shell) (rest : List World),
        readCommand fuel w s0 = Outcome.running s →
        mainLoop fuel (w :: rest) s0 = Outcome.returned 0
          { s with
            listOfProcesses := []
            trace := s.trace ++ s.listOfProcesses.flatMap (fun p =>
              [Event.kill p, Event.write (doneLine p (w.killedStatus p))]) }) := by
  have hprep := killEachProcess_eq w s.listOfProcesses s rfl hdone
  refine ⟨hprep, ?_, ?_⟩
  · rw [writtenTexts_kill_reports, List.length_map]
  · intro hexit fuel s0 rest hread
    have hdisp : dispatch w s = Outcome.returned 0
        { s with
          listOfProcesses := []
          trace := s.trace ++ s.listOfProcesses.flatMap (fun p =>
            [Event.kill p, Event.write (doneLine p (w.killedStatus p))]) } := by
      simp only [dispatch, hexit, if_true, prepForExit, hprep]
    simp only [mainLoop, mainIteration, hread, hdisp]

/-- Witness for C8: `exit` with the background processes 10 and 12 still running. -/
theorem prepForExit_reports_all_and_main_returns_witness :
    ((sampleShell ["exit"] [10, 12]).listOfProcesses.Nodup ∧
      ∀ p ∈ (sampleShell ["exit"] [10, 12]).listOfProcesses,
        (quietWorld ["exit"]).killedStatus p ≠ ChildExitMethod.neither) ∧
    (prepForExit (quietWorld ["exit"]) (sampleShell ["exit"] [10, 12])).map
        (fun s => (s.listOfProcesses, s.trace))
      = some ([],
          [Event.kill 10, Event.write "background pid 10 is done: terminated by signal 9\n",
           Event.kill 12, Event.write "background pid 12 is done: terminated by signal 9\n"]) :=
  ⟨by decide, by
    rw [(prepForExit_reports_all_and_main_returns (quietWorld ["exit"])
      (sampleShell ["exit"] [10, 12]) (by decide) (by decide)).1]
    decide⟩

/-- C9: for every parsed command, the file the child opens for standard input is the
explicit input file if one was given, otherwise `/dev/null` if the command is actually run in
the background, otherwise none; the same holds independently for standard output.  In
foreground-only mode the scan never sets `actuallyRunInBackground`, so a command ending in
`&` gets exactly the explicit redirections and no `/dev/null`. -/
theorem child_redirection_files (commandArray : Int → String) (p : Parsed) :
    (childProcess commandArray p).stdinFile
      = (if p.fileForInputRedirection ≠ "" then some p.fileForInputRedirection
         else if p.actuallyRunInBackground = TRUE then some DEV_NULL else none) ∧
    (childProcess commandArray p).stdoutFile
      = (if p.fileForOutputRedirection ≠ "" then some p.fileForOutputRedirection
         else if p.actuallyRunInBackground = TRUE then some DEV_NULL else none) ∧
    (∀ (arrayElementsUsed usingBackgroundIsPossible : Int),
      usingBackgroundIsPossible ≠ TRUE →
      p = parseTrailingTokens commandArray arrayElementsUsed usingBackgroundIsPossible →
      (childProcess commandArray p).stdinFile
        = (if p.fileForInputRedirection ≠ "" then some p.fileForInputRedirection else none) ∧
      (childProcess commandArray p).stdoutFile
        = (if p.fileForOutputRedirection ≠ "" then some p.fileForOutputRedirection
           else none)) := by
  have hdev : DEV_NULL ≠ "" := by decide
  have hin : (childProcess commandArray p).stdinFile
      = (if p.fileForInputRedirection ≠ "" then some p.fileForInputRedirection
         else if p.actuallyRunInBackground = TRUE then some DEV_NULL else none) := by
    simp only [childProcess]
    split_ifs <;> simp_all
  have hout : (childProcess commandArray p).stdoutFile
      = (if p.fileForOutputRedirection ≠ "" then some p.fileForOutputRedirection
         else if p.actuallyRunInBackground = TRUE then some DEV_NULL else none) := by
    simp only [childProcess]
    split_ifs <;> simp_all
  refine ⟨hin, hout, ?_⟩
  intro n ubip hmode hp
  have hbg : p.actuallyRunInBackground = FALSE := by
    rw [hp]; exact parseTrailingTokens_foregroundOnly commandArray n ubip hmode
  have hne : ¬ (p.actuallyRunInBackground = TRUE) := by
    rw [hbg]; decide
  rw [hin, hout]
  simp [hne]

/-- Witness for C9: `wc < in &` entered in foreground-only mode reads `in` and keeps the
shell's standard output. -/
theorem child_redirection_files_witness :
    FALSE ≠ TRUE ∧
    (childProcess (storeTokens ["wc", "<", "in", "&"] 0 (fun _ => "")).1
      (parseTrailingTokens (storeTokens ["wc", "<", "in", "&"] 0 (fun _ => "")).1 4 FALSE)).stdinFile
      = some "in" ∧
    (childProcess (storeTokens ["wc", "<", "in", "&"] 0 (fun _ => "")).1
      (parseTrailingTokens (storeTokens ["wc", "<", "in", "&"] 0 (fun _ => "")).1 4 FALSE)).stdoutFile
      = none :=
  ⟨by decide, by
    have h := (child_redirection_files (storeTokens ["wc", "<", "in", "&"] 0 (fun _ => "")).1
      (parseTrailingTokens (storeTokens ["wc", "<", "in", "&"] 0 (fun _ => "")).1 4 FALSE)).2.2
      4 FALSE (by decide) rfl
    rw [h.1, h.2]
    decide⟩

/-- C10: for every command array whose first token is `cd` (so at least one token is in
use), the directory passed to `chdir` is the second token when a second token is present,
non-empty and not exactly `~`, and the value of `HOME` otherwise. -/
theorem cd_targets_second_token_or_home (w : World) (s : Shell)
    (hcd : s.commandArray 0 = CD_COMMAND) (hused : 1 ≤ s.arrayElementsUsed) :
    dispatch w s = Outcome.running (s.emit [Event.chdir
      (if 2 ≤ s.arrayElementsUsed ∧ s.commandArray 1 ≠ "" ∧ s.commandArray 1 ≠ "~"
       then some (s.commandArray 1) else w.home)]) := by
  have h1 : ¬ (CD_COMMAND = EXIT_COMMAND) := by decide
  have h2 : ¬ (CD_COMMAND = STATUS_COMMAND) := by decide
  have hlen : ∀ t : String, t.length = 0 ↔ t = "" := by
    intro t
    constructor
    · intro h
      apply String.ext
      exact List.length_eq_zero.1 h
    · intro h
      rw [h]
      rfl
  simp only [dispatch, hcd, h1, h2, if_true, if_false]
  by_cases hone : s.arrayElementsUsed = 1
  · have hnot : ¬ (2 ≤ s.arrayElementsUsed) := by omega
    simp [hone, changeDirectory]
  · have htwo : 2 ≤ s.arrayElementsUsed := by omega
    simp only [hone, if_false, changeDirectory, hlen, htwo, true_and]
    by_cases he : s.commandArray 1 = ""
    · simp [he]
    · by_cases ht : s.commandArray 1 = "~"
      · simp [ht]
      · simp [he, ht]

/-- Witness for C10: `cd /tmp` targets `/tmp`, while `cd` and `cd ~` target `HOME`. -/
theorem cd_targets_second_token_or_home_witness :
    ((sampleShell ["cd", "/tmp"] []).commandArray 0 = CD_COMMAND ∧
      1 ≤ (sampleShell ["cd", "/tmp"] []).arrayElementsUsed) ∧
    (dispatch (quietWorld ["cd", "/tmp"]) (sampleShell ["cd", "/tmp"] [])).shell?.map
        (fun s => s.trace) = some [Event.chdir (some "/tmp")] ∧
    (dispatch (quietWorld ["cd"]) (sampleShell ["cd"] [])).shell?.map
        (fun s => s.trace) = some [Event.chdir (some "/home/user")] ∧
    (dispatch (quietWorld ["cd", "~"]) (sampleShell ["cd", "~"] [])).shell?.map
        (fun s => s.trace) = some [Event.chdir (some "/home/user")] :=
  ⟨by decide, by
    rw [cd_targets_second_token_or_home (quietWorld ["cd", "/tmp"])
      (sampleShell ["cd", "/tmp"] []) (by decide) (by decide)]
    decide, by decide, by decide⟩


/-- C12: while the shell is blocked in a foreground wait
(`weAreWaitingForForegroundProcessToStop` is `TRUE`) the handler only sets `receivedSigtstp`
to `TRUE`: the mode and the trace are untouched.  When the shell is not in a wait the handler
toggles the mode at once and writes the matching announcement, leaving `receivedSigtstp` as it
was. -/
theorem stop_signal_deferred_while_waiting (s : Shell) :
    (s.weAreWaitingForForegroundProcessToStop = TRUE →
      dealWithSigtstp s = { s with receivedSigtstp := TRUE }) ∧
    (s.weAreWaitingForForegroundProcessToStop = FALSE →
      s.usingBackgroundIsPossible = TRUE →
      dealWithSigtstp s =
        { s with
          usingBackgroundIsPossible := FALSE
          trace := s.trace ++
            [Event.write "\nEntering foreground-only mode (& is now ignored)\n"] }) ∧
    (s.weAreWaitingForForegroundProcessToStop = FALSE →
      s.usingBackgroundIsPossible = FALSE →
      dealWithSigtstp s =
        { s with
          usingBackgroundIsPossible := TRUE
          trace := s.trace ++ [Event.write "\nExiting foreground-only mode\n"] }) := by
  refine ⟨?_, ?_, ?_⟩
  · intro hwait
    exact dealWithSigtstp_of_waiting s (by rw [hwait]; decide)
  · intro hwait hmode
    rw [dealWithSigtstp_of_not_waiting s hwait, implementSigtstpLogic_of_normal s hmode]
  · intro hwait hmode
    rw [dealWithSigtstp_of_not_waiting s hwait,
      implementSigtstpLogic_of_not_normal s (by rw [hmode]; decide)]

/-- Witness for C12: a stop signal to a shell in normal mode, first while it waits for a
foreground process, then at its prompt. -/
theorem stop_signal_deferred_while_waiting_witness :
    (({ sampleShell [] [] with
        weAreWaitingForForegroundProcessToStop := TRUE } : Shell).weAreWaitingForForegroundProcessToStop
        = TRUE ∧
      (sampleShell [] []).weAreWaitingForForegroundProcessToStop = FALSE ∧
      (sampleShell [] []).usingBackgroundIsPossible = TRUE) ∧
    (dealWithSigtstp { sampleShell [] [] with
        weAreWaitingForForegroundProcessToStop := TRUE }).receivedSigtstp = TRUE ∧
    (dealWithSigtstp { sampleShell [] [] with
        weAreWaitingForForegroundProcessToStop := TRUE }).usingBackgroundIsPossible = TRUE ∧
    (dealWithSigtstp { sampleShell [] [] with
        weAreWaitingForForegroundProcessToStop := TRUE }).trace = [] ∧
    (dealWithSigtstp (sampleShell [] [])).usingBackgroundIsPossible = FALSE ∧
    (dealWithSigtstp (sampleShell [] [])).trace
      = [Event.write "\nEntering foreground-only mode (& is now ignored)\n"] :=
  ⟨by decide,
    by rw [(stop_signal_deferred_while_waiting { sampleShell [] [] with
        weAreWaitingForForegroundProcessToStop := TRUE }).1 rfl],
    by rw [(stop_signal_deferred_while_waiting { sampleShell [] [] with
        weAreWaitingForForegroundProcessToStop := TRUE }).1 rfl]; rfl,
    by rw [(stop_signal_deferred_while_waiting { sampleShell [] [] with
        weAreWaitingForForegroundProcessToStop := TRUE }).1 rfl]; rfl,
    by rw [(stop_signal_deferred_while_waiting (sampleShell [] [])).2.1 rfl rfl],
    by rw [(stop_signal_deferred_while_waiting (sampleShell [] [])).2.1 rfl rfl]; rfl⟩

/-- C13: for every foreground wait and every number `k` of stop signals delivered inside the
wait region, after the region `receivedSigtstp` and
`weAreWaitingForForegroundProcessToStop` are both `FALSE`; if `k ≥ 1` exactly one deferred
toggle has been performed (the state is that of `implementSigtstpLogic` run once after the
wait, so the mode is the toggle of its value before the wait), and if `k = 0` the mode is
unchanged; the foreground branch of `executeCommand` runs this region with the `k` of the
wait. -/
theorem deferred_toggle_after_wait (k : Nat) (s : Shell) :
    (foregroundWait k s).receivedSigtstp = FALSE ∧
    (foregroundWait k s).weAreWaitingForForegroundProcessToStop = FALSE ∧
    (1 ≤ k →
      foregroundWait k s = implementSigtstpLogic
        { s with weAreWaitingForForegroundProcessToStop := FALSE, receivedSigtstp := FALSE } ∧
      (foregroundWait k s).usingBackgroundIsPossible
        = (if s.usingBackgroundIsPossible = TRUE then FALSE else TRUE)) ∧
    (k = 0 →
      foregroundWait k s =
        { s with weAreWaitingForForegroundProcessToStop := FALSE, receivedSigtstp := FALSE } ∧
      (foregroundWait k s).usingBackgroundIsPossible = s.usingBackgroundIsPossible) ∧
    (∀ w : World, w.spawnPid ≠ -1 → w.stopSignalsDuringWait = k →
      (parseTrailingTokens s.commandArray s.arrayElementsUsed
        s.usingBackgroundIsPossible).actuallyRunInBackground = FALSE →
      executeCommand w s = recordTermination w.childExitMethod
        (foregroundWait k (afterFork s))) := by
  have hcases : (foregroundWait k s).receivedSigtstp = FALSE ∧
      (foregroundWait k s).weAreWaitingForForegroundProcessToStop = FALSE := by
    cases k with
    | zero => rw [foregroundWait_zero]; exact ⟨rfl, rfl⟩
    | succ k =>
      rw [foregroundWait_succ]
      have h := implementSigtstpLogic_mode
        { s with weAreWaitingForForegroundProcessToStop := FALSE, receivedSigtstp := FALSE }
      exact ⟨h.2.2.1, h.2.1⟩
  refine ⟨hcases.1, hcases.2, ?_, ?_, ?_⟩
  · intro hk
    obtain ⟨j, rfl⟩ : ∃ j, k = j + 1 := ⟨k - 1, by omega⟩
    rw [foregroundWait_succ]
    exact ⟨rfl, (implementSigtstpLogic_mode _).1⟩
  · intro hk
    subst hk
    rw [foregroundWait_zero]
    exact ⟨rfl, rfl⟩
  · intro w hfork hk hfg
    rw [executeCommand_of_foreground w s hfork hfg, hk]
    rfl

/-- Witness for C13: three stop signals while `ls` runs in the foreground of a shell in
normal mode: one toggle, to foreground-only mode, and one announcement. -/
theorem deferred_toggle_after_wait_witness :
    (1 ≤ 3) ∧
    (foregroundWait 3 (sampleShell ["ls"] [])).usingBackgroundIsPossible = FALSE ∧
    (foregroundWait 3 (sampleShell ["ls"] [])).trace
      = [Event.write "\nEntering foreground-only mode (& is now ignored)\n"] ∧
    (foregroundWait 0 (sampleShell ["ls"] [])).usingBackgroundIsPossible = TRUE :=
  ⟨by decide,
    by rw [((deferred_toggle_after_wait 3 (sampleShell ["ls"] [])).2.2.1 (by decide)).2]; decide,
    by decide,
    by rw [((deferred_toggle_after_wait 0 (sampleShell ["ls"] [])).2.2.2.1 rfl).2]; decide⟩

/-- C14 as stated fails: pid 7 is not in the registry `[3, 5]`, and `forget` gives no
NotFound result with the registry left as it was.  The walk passes the last node and reads
`processID` through the null pointer, so neither `forget` nor the function that called it
(here `checkStatusOfProcess`, for a process reported as exited) yields any state. -/
theorem forget_absent_counterexample :
    (7 : Int) ∉ [3, 5] ∧ forget 7 [3, 5] = none ∧
    (checkStatusOfProcess
      { quietWorld [] with pollStatus := fun _ => some (ChildExitMethod.exited 0) } 7
      (sampleShell [] [3, 5])).isNone = true := by
  decide

/-- C14 (amended): for every registry and pid, `forget` returns a registry exactly when the
pid is in the registry (with the pid absent there is no error result: the walk runs off the
end of the list); when the pid is present it removes exactly one entry, the first one
holding the pid, keeping all other entries in their order. -/
theorem forget_removes_first_entry (processID : Int) (l : List Int) :
    (forget processID l = none ↔ processID ∉ l) ∧
    (processID ∈ l →
      ∃ before after, l = before ++ processID :: after ∧ processID ∉ before ∧
        forget processID l = some (before ++ after)) ∧
    (processID ∈ l → forget processID l = some (l.erase processID)) :=
  ⟨forget_eq_none_iff processID l, forget_of_mem processID l, forget_eq_erase processID l⟩

/-- Witness for C14: forgetting 5 in `[3, 5, 7, 5]` removes the first 5 only. -/
theorem forget_removes_first_entry_witness :
    (5 : Int) ∈ [3, 5, 7, 5] ∧ forget 5 [3, 5, 7, 5] = some [3, 7, 5] :=
  ⟨by decide, by
    rw [(forget_removes_first_entry 5 [3, 5, 7, 5]).2.2 (by decide)]
    decide⟩

/-- C15: for every duplicate-free registry, `remember` of a pid not already present yields a
duplicate-free registry that is the old one with the pid appended at the end, and `forget`
of that pid then restores the original registry; `forget` of a pid that is present yields a
duplicate-free registry in which the pid no longer occurs. -/
theorem registry_stays_duplicate_free (l : List Int) (processID : Int) (hnodup : l.Nodup) :
    (processID ∉ l →
      remember l processID = l ++ [processID] ∧ (remember l processID).Nodup ∧
      forget processID (remember l processID) = some l) ∧
    (processID ∈ l →
      ∃ l2, forget processID l = some l2 ∧ l2.Nodup ∧ processID ∉ l2) := by
  refine ⟨?_, ?_⟩
  · intro hnot
    have happ := remember_eq_append l processID
    refine ⟨happ, ?_, ?_⟩
    · rw [happ, List.nodup_middle, List.append_nil]
      exact List.nodup_cons.2 ⟨hnot, hnodup⟩
    · rw [happ]
      have h := forget_append processID [] l hnot
      rwa [List.append_nil] at h
  · intro hmem
    obtain ⟨before, after, hl, _, hf⟩ := forget_of_mem processID l hmem
    rw [hl, List.nodup_middle, List.nodup_cons] at hnodup
    exact ⟨before ++ after, hf, hnodup.2, hnodup.1⟩

/-- Witness for C15: the registry `[10, 12]` and the pids 14 (new) and 10 (present). -/
theorem registry_stays_duplicate_free_witness :
    (([10, 12] : List Int).Nodup ∧ (14 : Int) ∉ [10, 12] ∧ (10 : Int) ∈ [10, 12]) ∧
    remember [10, 12] 14 = [10, 12, 14] ∧
    forget 14 (remember [10, 12] 14) = some [10, 12] ∧
    forget 10 [10, 12] = some [12] :=
  ⟨by decide,
    ((registry_stays_duplicate_free [10, 12] 14 (by decide)).1 (by decide)).1,
    ((registry_stays_duplicate_free [10, 12] 14 (by decide)).1 (by decide)).2.2,
    by decide⟩

/-- C16: the one-token command `ls` makes the scan read row `arrayElementsUsed - 2 = -1`,
below the array, whatever the memory there holds and in either mode; and the one-token line
`&`, which is neither a built-in nor a comment, leaves an empty argument vector after a read
of row -2. -/
theorem scan_reads_below_array (memory : Int → String) (usingBackgroundIsPossible : Int) :
    (-1 : Int) ∈ (parseTrailingTokens (storeTokens ["ls"] 0 memory).1 1
      usingBackgroundIsPossible).indicesRead ∧
    (-2 : Int) ∈ (parseTrailingTokens (storeTokens ["&"] 0 memory).1 1
      usingBackgroundIsPossible).indicesRead ∧
    commandArgs (storeTokens ["&"] 0 memory).1
      (parseTrailingTokens (storeTokens ["&"] 0 memory).1 1 usingBackgroundIsPossible) = [] := by
  have hls : (storeTokens ["ls"] 0 memory).1 0 = "ls" := by simp [storeTokens]
  have hbg : (storeTokens ["&"] 0 memory).1 0 = "&" := by simp [storeTokens]
  have hne : ¬ ("ls" = BACKGROUND_SYMBOL) := by decide
  have hfirst : ∀ (a : Int → String) (p : Parsed),
      p.arrayElementsUsed - 2 ∈ p.indicesRead ++ [p.arrayElementsUsed - 2] →
      p.arrayElementsUsed - 2 ∈ (checkRedirection a p).indicesRead := by
    intro a p _
    unfold checkRedirection
    split_ifs <;> simp
  have hkeep : ∀ (a : Int → String) (p : Parsed) (x : Int),
      x ∈ p.indicesRead → x ∈ (checkRedirection a p).indicesRead := by
    intro a p x hx
    unfold checkRedirection
    split_ifs <;> simp [hx]
  have hparse : ∀ (a : Int → String) (n ubip : Int) (x : Int),
      x ∈ (checkRedirection a (checkBackgroundSymbol a n ubip)).indicesRead →
      x ∈ (parseTrailingTokens a n ubip).indicesRead := by
    intro a n ubip x hx
    unfold parseTrailingTokens
    simp only
    split_ifs
    · exact hkeep a _ x hx
    · exact hx
  have hn1 : (checkBackgroundSymbol (storeTokens ["ls"] 0 memory).1 1
      usingBackgroundIsPossible).arrayElementsUsed = 1 := by
    simp [checkBackgroundSymbol, hls, hne]
  have hn2 : (checkBackgroundSymbol (storeTokens ["&"] 0 memory).1 1
      usingBackgroundIsPossible).arrayElementsUsed = 0 := by
    simp [checkBackgroundSymbol, hbg, BACKGROUND_SYMBOL]
  refine ⟨?_, ?_, ?_⟩
  · apply hparse
    have h := hfirst (storeTokens ["ls"] 0 memory).1
      (checkBackgroundSymbol (storeTokens ["ls"] 0 memory).1 1 usingBackgroundIsPossible)
      (by simp)
    rw [hn1] at h
    exact h
  · apply hparse
    have h := hfirst (storeTokens ["&"] 0 memory).1
      (checkBackgroundSymbol (storeTokens ["&"] 0 memory).1 1 usingBackgroundIsPossible)
      (by simp)
    rw [hn2] at h
    exact h
  · have hle := parseTrailingTokens_le (storeTokens ["&"] 0 memory).1 1
      usingBackgroundIsPossible
    rw [hn2] at hle
    have hz : (parseTrailingTokens (storeTokens ["&"] 0 memory).1 1
        usingBackgroundIsPossible).arrayElementsUsed.toNat = 0 := by omega
    simp only [commandArgs, hz, rowsOf, List.range_zero, List.map_nil]

/-- C17: for every token and every shell pid, the rescan-from-the-start loop of
`replaceDoubleDollarSigns` terminates (any number of passes above the length of the token is
enough, and gives the same result), and the resulting token contains no `$$`. -/
theorem rescan_terminates_without_double_dollar (pid : Int) (word : List Char) :
    ∃ result,
      rescanWord (sprintfD pid).data (word.length + 1) word = some result ∧
      (∀ fuel, word.length < fuel → rescanWord (sprintfD pid).data fuel word = some result) ∧
      ¬ "$$".data <:+: result := by
  have hrun := rescanWord_of_length_lt (sprintfD pid).data (sprintfD_no_dollar pid)
  refine ⟨_, hrun (word.length + 1) word (Nat.lt_succ_self _), fun fuel h => hrun fuel word h, ?_⟩
  exact not_infix_of_findDoubleDollar_none _ 0
    (rescanWord_result _ _ _ _ (hrun (word.length + 1) word (Nat.lt_succ_self _)))

/-- Witness for C17: the token `a$$$b` with pid 77 needs two passes. -/
theorem rescan_terminates_without_double_dollar_witness :
    ("a$$$b".data.length < 6) ∧
    rescanWord (sprintfD 77).data 6 "a$$$b".data = some "a77$b".data ∧
    rescanWord (sprintfD 77).data 1 "a$$$b".data = none ∧
    ¬ "$$".data <:+: "a77$b".data :=
  ⟨by decide, by
    obtain ⟨result, h1, h2, _⟩ := rescan_terminates_without_double_dollar 77 "a$$$b".data
    rw [h2 6 (by decide), ← h1]
    decide,
    by decide,
    not_infix_of_findDoubleDollar_none _ 0 (by decide)⟩

end Smallsh
